import Mathlib

/-!
Nullable scalar wrappers (`package null`): `Uint16`, `Duration`, `Float32`.

A shallow embedding of `uint16.go`, `duration.go` and `float32.go`.

* A Go `[]byte` / `string` is a list of byte values (`Bytes`).
* A method with a pointer receiver is a function from the receiver's prior
  state (and the arguments) to the pair of the receiver's state afterwards
  and the returned `error` (`none` is Go's `nil` error).
* `uint16`, `uint64` are `Nat` and `int64`, `time.Duration` are `Int`, with the
  wrap-around of a conversion or of an addition written as an explicit `%`.
* The standard-library functions the wrappers call (`strconv.ParseUint`,
  `strconv.ParseInt`, `strconv.FormatUint`, `strconv.FormatInt`,
  `json.Unmarshal`) are embedded from the Go standard library's code.
* A pointer (`*uint16`, ...) is the optional value it refers to; a `Scan`
  source is `none` for `nil`, and `convert.ConvertAssign`, which lives outside
  the package, is a parameter of `Scan`.
* `Float32` is written over a record of floating-point operations
  (`FloatOps`); `ieeeOps` gives the ones of the JSON number path with IEEE 754
  rounding.
-/

set_option linter.dupNamespace false
set_option exponentiation.threshold 4096
set_option maxRecDepth 4000

namespace Null

/-- A Go byte slice (or string): the list of its byte values. -/
abbrev Bytes := List Nat

/-! ## Errors -/

/-- The `Value` field of a `*json.UnmarshalTypeError`: a description of the
JSON value that could not be stored (`"number " + literal`, `"bool"`,
`"string"`, `"array"`, `"object"`). -/
inductive JSONValueDesc where
  | number (literal : Bytes)
  | bool
  | string
  | array
  | object
  deriving DecidableEq, Repr

/-- The dynamic type of a decoded `interface{}` that reaches the `default:`
arm of the type switch (its `reflect.TypeOf(v).Name()` is printed in the
message). -/
inductive DynType where
  | bool
  | slice
  | map
  deriving DecidableEq, Repr

/-- The errors the wrappers can return, by kind.
* `syntaxErr`: `*json.SyntaxError` (malformed JSON);
* `unmarshalType`: `*json.UnmarshalTypeError`;
* `numSyntax`, `numRange`: `*strconv.NumError` with `ErrSyntax`, `ErrRange`,
  carrying the text that was parsed;
* `overflowsUint16 i`: `fmt.Errorf("json: %d overflows max uint16 value", i)`;
* `cannotUnmarshal t`: `fmt.Errorf("json: cannot unmarshal %v into Go value of
  type null.Uint16", ...)` (and the message of `float32.go`);
* `overflowsFloat32`: `fmt.Errorf("json: %f overflows max float32 value", r)`;
* `phase`: the decoder's internal panic on input its scanner accepted but its
  decoder cannot read (never reached on scanned input). -/
inductive GoError where
  | syntaxErr
  | unmarshalType (value : JSONValueDesc)
  | numSyntax (num : Bytes)
  | numRange (num : Bytes)
  | overflowsUint16 (i : Nat)
  | cannotUnmarshal (t : DynType)
  | overflowsFloat32
  | phase
  deriving DecidableEq, Repr

/-! ## `strconv` -/

/-- The value `math.MaxUint64`. -/
def maxUint64 : Nat := 2 ^ 64 - 1

/-- The value `math.MaxUint16`. -/
def MaxUint16 : Nat := 65535

/-- Whether `c` is an ASCII decimal digit `'0'..'9'`. -/
def isDigit (c : Nat) : Bool := decide (48 ≤ c) && decide (c ≤ 57)

/-- The digit loop of `strconv.ParseUint(s, 10, bitSize)`: `n` is the value
accumulated so far (a `uint64`). A byte that is not a decimal digit is a
syntax error (a letter is a digit value of at least 10, which is not below the
base); `n >= cutoff` or a sum that wraps or exceeds `maxVal` is a range error
with the result `maxVal`. -/
def parseUintLoop (s0 : Bytes) (bitSize : Nat) : Bytes → Nat → Nat × Option GoError
  | [], n => (n, none)
  | c :: cs, n =>
    if isDigit c then
      let d := c - 48
      let cutoff := maxUint64 / 10 + 1
      let maxVal := 2 ^ bitSize - 1
      if n ≥ cutoff then (maxVal, some (GoError.numRange s0))
      else
        let n10 := (n * 10) % 2 ^ 64
        let n1 := (n10 + d) % 2 ^ 64
        if n1 < n10 ∨ n1 > maxVal then (maxVal, some (GoError.numRange s0))
        else parseUintLoop s0 bitSize cs n1
    else (0, some (GoError.numSyntax s0))

/-- The function `strconv.ParseUint(s, 10, bitSize)` for `1 ≤ bitSize ≤ 64`:
the parsed value and the error. -/
def ParseUint (s : Bytes) (bitSize : Nat) : Nat × Option GoError :=
  if s = [] then (0, some (GoError.numSyntax s))
  else parseUintLoop s bitSize s 0

/-- The function `strconv.ParseInt(s, 10, bitSize)` for `1 ≤ bitSize ≤ 64`: an
optional sign, then `ParseUint` and the signed range check. -/
def ParseInt (s0 : Bytes) (bitSize : Nat) : Int × Option GoError :=
  match s0 with
  | [] => (0, some (GoError.numSyntax s0))
  | c :: rest =>
    let neg := decide (c = 45)
    let s := if c = 43 ∨ c = 45 then rest else s0
    match ParseUint s bitSize with
    | (_, some (GoError.numSyntax _)) => (0, some (GoError.numSyntax s0))
    | (un, _) =>
      let cutoff := 2 ^ (bitSize - 1)
      if !neg && decide (un ≥ cutoff) then ((cutoff : Int) - 1, some (GoError.numRange s0))
      else if neg && decide (un > cutoff) then (-(cutoff : Int), some (GoError.numRange s0))
      else if neg then (-(un : Int), none) else ((un : Int), none)

/-- The digit loop of `formatBits` in base 10: the digits of `u` are put in
front of `acc`, least significant first, until `u < 10`. -/
def formatBits : Nat → Nat → Bytes → Bytes
  | 0, _, acc => acc
  | fuel + 1, u, acc =>
    if u < 10 then (48 + u) :: acc
    else formatBits fuel (u / 10) ((48 + u % 10) :: acc)

/-- The function `strconv.FormatUint(u, 10)` for a `uint64`: at most 20 digits. -/
def FormatUint (u : Nat) : Bytes := formatBits 20 u []

/-- The function `strconv.FormatInt(i, 10)` for an `int64`: `formatBits` of
`uint64(i)`, negated in `uint64` when `i < 0`, after a minus sign. -/
def FormatInt (i : Int) : Bytes :=
  let u := (i % 2 ^ 64).toNat
  if i < 0 then 45 :: formatBits 20 ((2 ^ 64 - u) % 2 ^ 64) []
  else formatBits 20 u []

/-! ## `encoding/json`: the scanner (`scanner.go`) -/

/-- The scanner's `step` field: which state function runs on the next byte. -/
inductive Step where
  | stateBeginValueOrEmpty | stateBeginValue | stateBeginStringOrEmpty
  | stateBeginString | stateEndValue | stateEndTop
  | stateInString | stateInStringEsc | stateInStringEscU | stateInStringEscU1
  | stateInStringEscU12 | stateInStringEscU123
  | stateNeg | state1 | state0 | stateDot | stateDot0 | stateE | stateESign | stateE0
  | stateT | stateTr | stateTru | stateF | stateFa | stateFal | stateFals
  | stateN | stateNu | stateNul | stateError
  deriving DecidableEq, Repr

/-- The op codes a state function returns. -/
inductive Op where
  | scanContinue | scanBeginLiteral | scanBeginObject | scanObjectKey
  | scanObjectValue | scanEndObject | scanBeginArray | scanArrayValue
  | scanEndArray | scanSkipSpace | scanEnd | scanError
  deriving DecidableEq, Repr

/-- The entries of the scanner's parse-state stack. -/
inductive ParseState where
  | parseObjectKey | parseObjectValue | parseArrayValue
  deriving DecidableEq, Repr

/-- The scanner: `parseState` is the stack with its top at the head of the
list (the last element of Go's slice); `err` records `s.err != nil`. -/
structure Scanner where
  step : Step
  endTop : Bool
  parseState : List ParseState
  err : Bool
  deriving DecidableEq, Repr

/-- The constant `maxNestingDepth`. -/
def maxNestingDepth : Nat := 10000

/-- The method `scanner.reset`. -/
def Scanner.reset : Scanner :=
  { step := Step.stateBeginValue, endTop := false, parseState := [], err := false }

/-- The method `scanner.error`: records the error and parks the scanner. -/
def Scanner.error (s : Scanner) : Scanner × Op :=
  ({ s with step := Step.stateError, err := true }, Op.scanError)

/-- The method `scanner.pushParseState`. -/
def Scanner.pushParseState (s : Scanner) (newParseState : ParseState) (successState : Op) :
    Scanner × Op :=
  let s1 := { s with parseState := newParseState :: s.parseState }
  if s1.parseState.length ≤ maxNestingDepth then (s1, successState) else s1.error

/-- The method `scanner.popParseState`. -/
def Scanner.popParseState (s : Scanner) : Scanner :=
  let rest := s.parseState.tail
  if rest.length = 0 then { s with parseState := rest, step := Step.stateEndTop, endTop := true }
  else { s with parseState := rest, step := Step.stateEndValue }

/-- The function `isSpace`. -/
def isSpace (c : Nat) : Bool :=
  decide (c ≤ 32) && (decide (c = 32) || decide (c = 9) || decide (c = 13) || decide (c = 10))

/-- The state after the top-level value: only space is allowed. -/
def stateEndTop (s : Scanner) (c : Nat) : Scanner × Op :=
  if !isSpace c then ((s.error).1, Op.scanEnd) else (s, Op.scanEnd)

/-- The state after a complete value. -/
def stateEndValue (s : Scanner) (c : Nat) : Scanner × Op :=
  match s.parseState with
  | [] => stateEndTop { s with step := Step.stateEndTop, endTop := true } c
  | ps :: rest =>
    if isSpace c then ({ s with step := Step.stateEndValue }, Op.scanSkipSpace)
    else
      match ps with
      | ParseState.parseObjectKey =>
        if c = 58 then
          ({ s with parseState := ParseState.parseObjectValue :: rest,
                    step := Step.stateBeginValue }, Op.scanObjectKey)
        else s.error
      | ParseState.parseObjectValue =>
        if c = 44 then
          ({ s with parseState := ParseState.parseObjectKey :: rest,
                    step := Step.stateBeginString }, Op.scanObjectValue)
        else if c = 125 then (s.popParseState, Op.scanEndObject)
        else s.error
      | ParseState.parseArrayValue =>
        if c = 44 then ({ s with step := Step.stateBeginValue }, Op.scanArrayValue)
        else if c = 93 then (s.popParseState, Op.scanEndArray)
        else s.error

/-- The state at the beginning of a value. -/
def stateBeginValue (s : Scanner) (c : Nat) : Scanner × Op :=
  if isSpace c then (s, Op.scanSkipSpace)
  else if c = 123 then
    Scanner.pushParseState { s with step := Step.stateBeginStringOrEmpty }
      ParseState.parseObjectKey Op.scanBeginObject
  else if c = 91 then
    Scanner.pushParseState { s with step := Step.stateBeginValueOrEmpty }
      ParseState.parseArrayValue Op.scanBeginArray
  else if c = 34 then ({ s with step := Step.stateInString }, Op.scanBeginLiteral)
  else if c = 45 then ({ s with step := Step.stateNeg }, Op.scanBeginLiteral)
  else if c = 48 then ({ s with step := Step.state0 }, Op.scanBeginLiteral)
  else if c = 116 then ({ s with step := Step.stateT }, Op.scanBeginLiteral)
  else if c = 102 then ({ s with step := Step.stateF }, Op.scanBeginLiteral)
  else if c = 110 then ({ s with step := Step.stateN }, Op.scanBeginLiteral)
  else if 49 ≤ c ∧ c ≤ 57 then ({ s with step := Step.state1 }, Op.scanBeginLiteral)
  else s.error

/-- The state after `[`. -/
def stateBeginValueOrEmpty (s : Scanner) (c : Nat) : Scanner × Op :=
  if isSpace c then (s, Op.scanSkipSpace)
  else if c = 93 then stateEndValue s c
  else stateBeginValue s c

/-- The state after `{"key":value,`. -/
def stateBeginString (s : Scanner) (c : Nat) : Scanner × Op :=
  if isSpace c then (s, Op.scanSkipSpace)
  else if c = 34 then ({ s with step := Step.stateInString }, Op.scanBeginLiteral)
  else s.error

/-- The state after `{`. -/
def stateBeginStringOrEmpty (s : Scanner) (c : Nat) : Scanner × Op :=
  if isSpace c then (s, Op.scanSkipSpace)
  else if c = 125 then
    stateEndValue { s with parseState := ParseState.parseObjectValue :: s.parseState.tail } c
  else stateBeginString s c

/-- Whether `c` is a hexadecimal digit. -/
def isHex (c : Nat) : Bool :=
  (decide (48 ≤ c) && decide (c ≤ 57)) || (decide (97 ≤ c) && decide (c ≤ 102)) ||
    (decide (65 ≤ c) && decide (c ≤ 70))

/-- The states of a number after its first digit: `state0` and what follows. -/
def state0 (s : Scanner) (c : Nat) : Scanner × Op :=
  if c = 46 then ({ s with step := Step.stateDot }, Op.scanContinue)
  else if c = 101 ∨ c = 69 then ({ s with step := Step.stateE }, Op.scanContinue)
  else stateEndValue s c

/-- The state after the sign of an exponent (or after `e` when there is no sign). -/
def stateESign (s : Scanner) (c : Nat) : Scanner × Op :=
  if isDigit c then ({ s with step := Step.stateE0 }, Op.scanContinue) else s.error

/-- One step of the scanner: `s.step(s, c)`. -/
def Scanner.doStep (s : Scanner) (c : Nat) : Scanner × Op :=
  match s.step with
  | Step.stateBeginValueOrEmpty => stateBeginValueOrEmpty s c
  | Step.stateBeginValue => stateBeginValue s c
  | Step.stateBeginStringOrEmpty => stateBeginStringOrEmpty s c
  | Step.stateBeginString => stateBeginString s c
  | Step.stateEndValue => stateEndValue s c
  | Step.stateEndTop => stateEndTop s c
  | Step.stateInString =>
    if c = 34 then ({ s with step := Step.stateEndValue }, Op.scanContinue)
    else if c = 92 then ({ s with step := Step.stateInStringEsc }, Op.scanContinue)
    else if c < 32 then s.error
    else (s, Op.scanContinue)
  | Step.stateInStringEsc =>
    if c = 98 ∨ c = 102 ∨ c = 110 ∨ c = 114 ∨ c = 116 ∨ c = 92 ∨ c = 47 ∨ c = 34 then
      ({ s with step := Step.stateInString }, Op.scanContinue)
    else if c = 117 then ({ s with step := Step.stateInStringEscU }, Op.scanContinue)
    else s.error
  | Step.stateInStringEscU =>
    if isHex c then ({ s with step := Step.stateInStringEscU1 }, Op.scanContinue) else s.error
  | Step.stateInStringEscU1 =>
    if isHex c then ({ s with step := Step.stateInStringEscU12 }, Op.scanContinue) else s.error
  | Step.stateInStringEscU12 =>
    if isHex c then ({ s with step := Step.stateInStringEscU123 }, Op.scanContinue) else s.error
  | Step.stateInStringEscU123 =>
    if isHex c then ({ s with step := Step.stateInString }, Op.scanContinue) else s.error
  | Step.stateNeg =>
    if c = 48 then ({ s with step := Step.state0 }, Op.scanContinue)
    else if 49 ≤ c ∧ c ≤ 57 then ({ s with step := Step.state1 }, Op.scanContinue)
    else s.error
  | Step.state1 =>
    if isDigit c then ({ s with step := Step.state1 }, Op.scanContinue) else state0 s c
  | Step.state0 => state0 s c
  | Step.stateDot =>
    if isDigit c then ({ s with step := Step.stateDot0 }, Op.scanContinue) else s.error
  | Step.stateDot0 =>
    if isDigit c then (s, Op.scanContinue)
    else if c = 101 ∨ c = 69 then ({ s with step := Step.stateE }, Op.scanContinue)
    else stateEndValue s c
  | Step.stateE =>
    if c = 43 ∨ c = 45 then ({ s with step := Step.stateESign }, Op.scanContinue)
    else stateESign s c
  | Step.stateESign => stateESign s c
  | Step.stateE0 => if isDigit c then (s, Op.scanContinue) else stateEndValue s c
  | Step.stateT =>
    if c = 114 then ({ s with step := Step.stateTr }, Op.scanContinue) else s.error
  | Step.stateTr =>
    if c = 117 then ({ s with step := Step.stateTru }, Op.scanContinue) else s.error
  | Step.stateTru =>
    if c = 101 then ({ s with step := Step.stateEndValue }, Op.scanContinue) else s.error
  | Step.stateF =>
    if c = 97 then ({ s with step := Step.stateFa }, Op.scanContinue) else s.error
  | Step.stateFa =>
    if c = 108 then ({ s with step := Step.stateFal }, Op.scanContinue) else s.error
  | Step.stateFal =>
    if c = 115 then ({ s with step := Step.stateFals }, Op.scanContinue) else s.error
  | Step.stateFals =>
    if c = 101 then ({ s with step := Step.stateEndValue }, Op.scanContinue) else s.error
  | Step.stateN =>
    if c = 117 then ({ s with step := Step.stateNu }, Op.scanContinue) else s.error
  | Step.stateNu =>
    if c = 108 then ({ s with step := Step.stateNul }, Op.scanContinue) else s.error
  | Step.stateNul =>
    if c = 108 then ({ s with step := Step.stateEndValue }, Op.scanContinue) else s.error
  | Step.stateError => (s, Op.scanError)

/-- The method `scanner.eof`: whether the input may end here (`true`), which
it may when the top-level value is complete, if need be after one more space. -/
def Scanner.eof (s : Scanner) : Bool :=
  if s.err then false
  else if s.endTop then true
  else (s.doStep 32).1.endTop

/-- The loop of `checkValid`: the scanner after the bytes, or `none` at the
first `scanError`. -/
def checkValidLoop : Bytes → Scanner → Option Scanner
  | [], s => some s
  | c :: cs, s =>
    match s.doStep c with
    | (_, Op.scanError) => none
    | (s1, _) => checkValidLoop cs s1

/-- The function `checkValid`: `none` when `data` is one JSON value with
optional space around it, else the syntax error. -/
def checkValid (data : Bytes) : Option GoError :=
  match checkValidLoop data Scanner.reset with
  | none => some GoError.syntaxErr
  | some s => if s.eof then none else some GoError.syntaxErr

/-! ## `encoding/json`: the decoder (`decode.go`) -/

/-- The decoder's `scanWhile(scanSkipSpace)`: drops the leading space. -/
def skipSpace : Bytes → Bytes
  | [] => []
  | c :: cs => if isSpace c then skipSpace cs else c :: cs

/-- The string loop of `rescanLiteral`: the bytes up to and with the closing
quote; the byte after a backslash is skipped over (`esc` is set on it). -/
def rescanString : Bytes → Bool → Bytes
  | [], _ => []
  | c :: cs, esc =>
    if esc then c :: rescanString cs false
    else if c = 92 then c :: rescanString cs true
    else if c = 34 then [c]
    else c :: rescanString cs false

/-- The number loop of `rescanLiteral`: the bytes while they are one of
`0-9 . e E + -`. -/
def rescanNumber : Bytes → Bytes
  | [] => []
  | c :: cs =>
    if isDigit c ∨ c = 46 ∨ c = 101 ∨ c = 69 ∨ c = 43 ∨ c = 45 then c :: rescanNumber cs
    else []

/-- The method `rescanLiteral` after the first byte `c` of a literal: the
literal's remaining bytes, taken from `rest`. -/
def rescanLiteral (c : Nat) (rest : Bytes) : Bytes :=
  if c = 34 then rescanString rest false
  else if isDigit c ∨ c = 45 then rescanNumber rest
  else if c = 116 then rest.take 3
  else if c = 102 then rest.take 4
  else if c = 110 then rest.take 3
  else []

/-- The top-level value the decoder finds in scanned input: the op code after
the leading space (`scanBeginObject`, `scanBeginArray`, `scanBeginLiteral`),
with the literal's bytes. -/
inductive TopValue where
  | object
  | array
  | literal (item : Bytes)
  deriving DecidableEq, Repr

/-- The dispatch of `decodeState.value` on the first byte after the space. -/
def topValue (data : Bytes) : TopValue :=
  match skipSpace data with
  | [] => TopValue.literal []
  | c :: rest =>
    if c = 123 then TopValue.object
    else if c = 91 then TopValue.array
    else TopValue.literal (c :: rescanLiteral c rest)

/-- The constant `utf8.RuneError` (`unicode.ReplacementChar`). -/
def RuneError : Nat := 65533

/-- The function `utf8.DecodeRune`: the rune and its width in bytes; an
invalid or short encoding is `(RuneError, 1)`. -/
def decodeRune (p : Bytes) : Nat × Nat :=
  match p with
  | [] => (RuneError, 0)
  | p0 :: t =>
    if p0 < 128 then (p0, 1)
    else
      -- the table `first` and `acceptRanges`: size, and the range of the second byte
      let x : Nat × Nat × Nat :=
        if 194 ≤ p0 ∧ p0 ≤ 223 then (2, 128, 191)
        else if p0 = 224 then (3, 160, 191)
        else if (225 ≤ p0 ∧ p0 ≤ 236) ∨ p0 = 238 ∨ p0 = 239 then (3, 128, 191)
        else if p0 = 237 then (3, 128, 159)
        else if p0 = 240 then (4, 144, 191)
        else if 241 ≤ p0 ∧ p0 ≤ 243 then (4, 128, 191)
        else if p0 = 244 then (4, 128, 143)
        else (0, 0, 0)
      let sz := x.1
      if sz = 0 then (RuneError, 1)
      else if t.length + 1 < sz then (RuneError, 1)
      else
        match t with
        | [] => (RuneError, 1)
        | b1 :: t1 =>
          if b1 < x.2.1 ∨ x.2.2 < b1 then (RuneError, 1)
          else if sz ≤ 2 then ((p0 % 32) * 64 + b1 % 64, 2)
          else
            match t1 with
            | [] => (RuneError, 1)
            | b2 :: t2 =>
              if b2 < 128 ∨ 191 < b2 then (RuneError, 1)
              else if sz ≤ 3 then ((p0 % 16) * 4096 + (b1 % 64) * 64 + b2 % 64, 3)
              else
                match t2 with
                | [] => (RuneError, 1)
                | b3 :: _ =>
                  if b3 < 128 ∨ 191 < b3 then (RuneError, 1)
                  else ((p0 % 8) * 262144 + (b1 % 64) * 4096 + (b2 % 64) * 64 + b3 % 64, 4)

/-- The function `utf8.EncodeRune`: the UTF-8 bytes of a rune; a surrogate or
a rune above `MaxRune` is written as `RuneError`. -/
def encodeRune (r : Nat) : Bytes :=
  if r ≤ 127 then [r]
  else if r ≤ 2047 then [192 + r / 64, 128 + r % 64]
  else if r > 1114111 ∨ (55296 ≤ r ∧ r ≤ 57343) then [239, 191, 189]
  else if r ≤ 65535 then [224 + r / 4096, 128 + (r / 64) % 64, 128 + r % 64]
  else [240 + r / 262144, 128 + (r / 4096) % 64, 128 + (r / 64) % 64, 128 + r % 64]

/-- The value of a hexadecimal digit. -/
def hexVal (c : Nat) : Option Nat :=
  if 48 ≤ c ∧ c ≤ 57 then some (c - 48)
  else if 97 ≤ c ∧ c ≤ 102 then some (c - 97 + 10)
  else if 65 ≤ c ∧ c ≤ 70 then some (c - 65 + 10)
  else none

/-- The function `getu4`: the rune of a `\uXXXX` at the head of `s`, or `none`
(Go's `-1`). -/
def getu4 (s : Bytes) : Option Nat :=
  match s with
  | 92 :: 117 :: a :: b :: c :: d :: _ =>
    match hexVal a, hexVal b, hexVal c, hexVal d with
    | some x, some y, some z, some w => some (((x * 16 + y) * 16 + z) * 16 + w)
    | _, _, _, _ => none
  | _ => none

/-- The function `utf16.DecodeRune` on the results of two `getu4`: the rune of
a valid surrogate pair, else the replacement character. -/
def utf16DecodeRune (r1 : Nat) (r2 : Option Nat) : Nat :=
  match r2 with
  | some r2 =>
    if 55296 ≤ r1 ∧ r1 < 56320 ∧ 56320 ≤ r2 ∧ r2 < 57344 then
      (r1 - 55296) * 1024 + (r2 - 56320) + 65536
    else RuneError
  | none => RuneError

/-- The loop of `unquoteBytes` over the bytes between the quotes: escapes are
replaced, invalid UTF-8 is coerced to the replacement character; `none` is
`ok == false`. Each round consumes at least one byte, so `fuel` above the
length of `s` is never used up. -/
def unquoteLoop : Nat → Bytes → Option Bytes
  | 0, _ => none
  | _ + 1, [] => some []
  | fuel + 1, c :: rest =>
    if c = 92 then
      match rest with
      | [] => none
      | e :: rest2 =>
        if e = 34 ∨ e = 92 ∨ e = 47 ∨ e = 39 then (unquoteLoop fuel rest2).map (e :: ·)
        else if e = 98 then (unquoteLoop fuel rest2).map (8 :: ·)
        else if e = 102 then (unquoteLoop fuel rest2).map (12 :: ·)
        else if e = 110 then (unquoteLoop fuel rest2).map (10 :: ·)
        else if e = 114 then (unquoteLoop fuel rest2).map (13 :: ·)
        else if e = 116 then (unquoteLoop fuel rest2).map (9 :: ·)
        else if e = 117 then
          match getu4 (c :: rest) with
          | none => none
          | some rr =>
            let after := rest.drop 5
            if 55296 ≤ rr ∧ rr < 57344 then
              let dec := utf16DecodeRune rr (getu4 after)
              if dec ≠ RuneError then
                (unquoteLoop fuel (after.drop 6)).map (encodeRune dec ++ ·)
              else (unquoteLoop fuel after).map (encodeRune RuneError ++ ·)
            else (unquoteLoop fuel after).map (encodeRune rr ++ ·)
        else none
    else if c = 34 ∨ c < 32 then none
    else if c < 128 then (unquoteLoop fuel rest).map (c :: ·)
    else
      let d := decodeRune (c :: rest)
      (unquoteLoop fuel ((c :: rest).drop d.2)).map (encodeRune d.1 ++ ·)

/-- The function `unquoteBytes`: the content of a quoted string literal. -/
def unquoteBytes (s : Bytes) : Option Bytes :=
  match s with
  | 34 :: t =>
    if t ≠ [] ∧ t.getLast? = some 34 then unquoteLoop (t.length + 1) t.dropLast else none
  | _ => none

/-- The value of a run of decimal digits, continuing from `a`. -/
def decVal : Bytes → Nat → Nat
  | [], a => a
  | c :: cs, a => decVal cs (a * 10 + (c - 48))

/-- The parts of a JSON number literal (sign aside): the digits of the
integer part and of the fraction, the sign of the exponent and its digits. -/
structure NumberParts where
  intDigits : Bytes
  fracDigits : Bytes
  expNeg : Bool
  expDigits : Bytes
  deriving DecidableEq, Repr

/-- Splits a JSON number literal `-? int (. frac)? ([eE] [+-]? exp)?`. -/
def numberParts (item : Bytes) : NumberParts :=
  let s := match item with
    | 45 :: t => t
    | _ => item
  let intDigits := s.takeWhile isDigit
  let s1 := s.dropWhile isDigit
  let fracDigits := match s1 with
    | 46 :: t => t.takeWhile isDigit
    | _ => []
  let s2 := match s1 with
    | 46 :: t => t.dropWhile isDigit
    | _ => s1
  match s2 with
  | _ :: 45 :: t => { intDigits, fracDigits, expNeg := true, expDigits := t.takeWhile isDigit }
  | _ :: 43 :: t => { intDigits, fracDigits, expNeg := false, expDigits := t.takeWhile isDigit }
  | _ :: t => { intDigits, fracDigits, expNeg := false, expDigits := t.takeWhile isDigit }
  | [] => { intDigits, fracDigits, expNeg := false, expDigits := [] }

/-- Whether `strconv.ParseFloat(item, 64)` fails with `ErrRange` on a JSON
number literal: whether the magnitude `m * 10 ^ e` of the literal rounds (to
nearest, ties to even) beyond the largest finite float64, that is whether it
is at least `2 ^ 1024 - 2 ^ 970`, halfway between `math.MaxFloat64` and
`2 ^ 1024`. -/
def float64Overflows (item : Bytes) : Bool :=
  let p := numberParts item
  let m := decVal (p.intDigits ++ p.fracDigits) 0
  let e := decVal p.expDigits 0
  let bound := 2 ^ 1024 - 2 ^ 970
  if p.expNeg then decide (m ≥ bound * 10 ^ (e + p.fracDigits.length))
  else if e ≥ p.fracDigits.length then decide (m * 10 ^ (e - p.fracDigits.length) ≥ bound)
  else decide (m ≥ bound * 10 ^ (p.fracDigits.length - e))

/-- The value stored in an empty `interface{}` by the decoder, by dynamic
type: `nil`, `bool`, `float64` (kept as the number literal it was converted
from), `string`, `[]interface{}` and `map[string]interface{}` (whose elements
the wrappers never look at). -/
inductive IfaceValue where
  | nil
  | bool (b : Bool)
  | float64 (literal : Bytes)
  | string (s : Bytes)
  | slice
  | map
  deriving DecidableEq, Repr

/-- The method `literalStore` for an `interface{}` target (and
`literalInterface`): `convertNumber` fails when `ParseFloat` does. -/
def literalInterface (item : Bytes) : Except GoError IfaceValue :=
  match item with
  | [] => Except.error GoError.phase
  | c :: _ =>
    if c = 110 then Except.ok IfaceValue.nil
    else if c = 116 ∨ c = 102 then Except.ok (IfaceValue.bool (decide (c = 116)))
    else if c = 34 then
      match unquoteBytes item with
      | none => Except.error GoError.phase
      | some s => Except.ok (IfaceValue.string s)
    else if c ≠ 45 ∧ (c < 48 ∨ c > 57) then Except.error GoError.phase
    else if float64Overflows item then
      Except.error (GoError.unmarshalType (JSONValueDesc.number item))
    else Except.ok (IfaceValue.float64 item)

/-- Whether the scanner is inside a number literal. -/
def isNumberStep (st : Step) : Bool :=
  st = Step.stateNeg || st = Step.state0 || st = Step.state1 || st = Step.stateDot ||
    st = Step.stateDot0 || st = Step.stateE || st = Step.stateESign || st = Step.stateE0

/-- The error `arrayInterface` and `objectInterface` save while they decode the
elements of an array or object into `interface{}`: the elements are decoded in
document order and the only element that can fail is a number literal on which
`convertNumber` fails; the first error is kept. The number literals are the
maximal runs of bytes on which the scanner is in a number state; `cur` is the
literal being read, reversed. -/
def firstNumberError : Bytes → Scanner → Bytes → Option GoError
  | [], _, cur =>
    if cur ≠ [] ∧ float64Overflows cur.reverse then
      some (GoError.unmarshalType (JSONValueDesc.number cur.reverse))
    else none
  | c :: cs, s, cur =>
    let s1 := (s.doStep c).1
    if isNumberStep s1.step then firstNumberError cs s1 (c :: cur)
    else if cur ≠ [] ∧ float64Overflows cur.reverse then
      some (GoError.unmarshalType (JSONValueDesc.number cur.reverse))
    else firstNumberError cs s1 []

/-- The call `json.Unmarshal(data, &v)` for `var v interface{}`: the error, or
the value stored in `v`. -/
def decodeInterface (data : Bytes) : Except GoError IfaceValue :=
  match checkValid data with
  | some e => Except.error e
  | none =>
    match topValue data with
    | TopValue.object =>
      match firstNumberError data Scanner.reset [] with
      | some e => Except.error e
      | none => Except.ok IfaceValue.map
    | TopValue.array =>
      match firstNumberError data Scanner.reset [] with
      | some e => Except.error e
      | none => Except.ok IfaceValue.slice
    | TopValue.literal item => literalInterface item

/-- The call `json.Unmarshal(data, &i)` for a `uint64` holding `cur`: the
value of `i` afterwards and the error. A number literal is stored when
`strconv.ParseUint(item, 10, 64)` succeeds; `null` leaves `i` as it is; every
other value is an `UnmarshalTypeError` and leaves `i` as it is. -/
def decodeUint64 (data : Bytes) (cur : Nat) : Nat × Option GoError :=
  match checkValid data with
  | some e => (cur, some e)
  | none =>
    match topValue data with
    | TopValue.object => (cur, some (GoError.unmarshalType JSONValueDesc.object))
    | TopValue.array => (cur, some (GoError.unmarshalType JSONValueDesc.array))
    | TopValue.literal [] => (cur, some GoError.phase)
    | TopValue.literal (c :: item) =>
      if c = 110 then (cur, none)
      else if c = 116 ∨ c = 102 then (cur, some (GoError.unmarshalType JSONValueDesc.bool))
      else if c = 34 then (cur, some (GoError.unmarshalType JSONValueDesc.string))
      else
        match ParseUint (c :: item) 64 with
        | (n, none) => (n, none)
        | (_, some _) =>
          (cur, some (GoError.unmarshalType (JSONValueDesc.number (c :: item))))

/-- The call `json.Unmarshal(data, &d)` for an `int64` (a `time.Duration`)
holding `cur`: as `decodeUint64`, with `strconv.ParseInt(item, 10, 64)`. -/
def decodeInt64 (data : Bytes) (cur : Int) : Int × Option GoError :=
  match checkValid data with
  | some e => (cur, some e)
  | none =>
    match topValue data with
    | TopValue.object => (cur, some (GoError.unmarshalType JSONValueDesc.object))
    | TopValue.array => (cur, some (GoError.unmarshalType JSONValueDesc.array))
    | TopValue.literal [] => (cur, some GoError.phase)
    | TopValue.literal (c :: item) =>
      if c = 110 then (cur, none)
      else if c = 116 ∨ c = 102 then (cur, some (GoError.unmarshalType JSONValueDesc.bool))
      else if c = 34 then (cur, some (GoError.unmarshalType JSONValueDesc.string))
      else
        match ParseInt (c :: item) 64 with
        | (n, none) => (n, none)
        | (_, some _) =>
          (cur, some (GoError.unmarshalType (JSONValueDesc.number (c :: item))))

/-! ## The shared null literal -/

/-- Modelled from the spec: the package variable `NullBytes`, declared in a
file of the package that is not among the sources here; the spec has it as the
one shared byte sequence of the JSON null literal, `null`. -/
def NullBytes : Bytes := [110, 117, 108, 108]

/-! ## `uint16.go` -/

/-- The struct `Uint16`: a nullable `uint16`. -/
structure Uint16 where
  Uint16 : Nat
  Valid : Bool
  deriving DecidableEq, Repr

/-- The constructor `NewUint16`. -/
def NewUint16 (i : Nat) (valid : Bool) : Uint16 := { Uint16 := i, Valid := valid }

/-- The constructor `Uint16From`. -/
def Uint16From (i : Nat) : Uint16 := NewUint16 i true

/-- The end of `Uint16.UnmarshalJSON`, after the type switch has left `i` and
`err`: the range check, then the assignment of the value and of `Valid`. -/
def Uint16.finishUnmarshalJSON (u : Null.Uint16) (i : Nat) (err : Option GoError) :
    Null.Uint16 × Option GoError :=
  if i > MaxUint16 then (u, some (GoError.overflowsUint16 i))
  else
    let v := i % 2 ^ 16
    ({ Uint16 := v, Valid := err.isNone && decide (v ≠ 0) }, err)

/-- The method `Uint16.UnmarshalJSON`. -/
def Uint16.UnmarshalJSON (u : Null.Uint16) (data : Bytes) : Null.Uint16 × Option GoError :=
  if data = NullBytes then ({ Uint16 := 0, Valid := false }, none)
  else
    match decodeInterface data with
    | Except.error err => (u, some err)
    | Except.ok v =>
      match v with
      | IfaceValue.float64 _ =>
        let r := decodeUint64 data 0
        u.finishUnmarshalJSON r.1 r.2
      | IfaceValue.string str =>
        if str.length = 0 then ({ u with Valid := false }, none)
        else
          let r := ParseUint str 16
          u.finishUnmarshalJSON r.1 r.2
      | IfaceValue.nil => ({ u with Valid := false }, none)
      | IfaceValue.bool _ => u.finishUnmarshalJSON 0 (some (GoError.cannotUnmarshal DynType.bool))
      | IfaceValue.slice => u.finishUnmarshalJSON 0 (some (GoError.cannotUnmarshal DynType.slice))
      | IfaceValue.map => u.finishUnmarshalJSON 0 (some (GoError.cannotUnmarshal DynType.map))

/-- The method `Uint16.UnmarshalText`; `none` is a nil slice. -/
def Uint16.UnmarshalText (u : Null.Uint16) (text : Option Bytes) : Null.Uint16 × Option GoError :=
  match text with
  | none => ({ u with Valid := false }, none)
  | some t =>
    if t.length = 0 then ({ u with Valid := false }, none)
    else
      let r := ParseUint t 16
      if r.2.isNone then ({ Uint16 := r.1 % 2 ^ 16, Valid := true }, r.2)
      else ({ u with Valid := false }, r.2)

/-- The method `Uint16.MarshalJSON`. -/
def Uint16.MarshalJSON (u : Null.Uint16) : Bytes × Option GoError :=
  if !u.Valid then (NullBytes, none) else (FormatUint u.Uint16, none)

/-- The method `Uint16.MarshalText`. -/
def Uint16.MarshalText (u : Null.Uint16) : Bytes × Option GoError :=
  if !u.Valid then ([], none) else (FormatUint u.Uint16, none)

/-- The constructor `Uint16FromPtr`; a `*uint16` is `none` when nil and else
the value it points to. -/
def Uint16FromPtr (i : Option Nat) : Uint16 :=
  match i with
  | none => NewUint16 0 false
  | some v => NewUint16 v true

/-- The method `Uint16.SetValid`. -/
def Uint16.SetValid (_u : Null.Uint16) (n : Nat) : Null.Uint16 := { Uint16 := n, Valid := true }

/-- The method `Uint16.Ptr`: nil, or a pointer to the value. -/
def Uint16.Ptr (u : Null.Uint16) : Option Nat := if !u.Valid then none else some u.Uint16

/-- The method `Uint16.IsZero`. -/
def Uint16.IsZero (u : Null.Uint16) : Bool := !u.Valid

/-- The method `Uint16.Scan`. The source is `none` for `nil`. The collaborator
`convert.ConvertAssign(&u.Uint16, value)`, which is not part of this package,
is the parameter `ConvertAssign`: from the value the destination holds and the
source to the value it holds afterwards and the error, of any error type. -/
def Uint16.Scan {Src E : Type} (ConvertAssign : Nat → Src → Nat × Option E) (u : Null.Uint16)
    (value : Option Src) : Null.Uint16 × Option E :=
  match value with
  | none => ({ Uint16 := 0, Valid := false }, none)
  | some v =>
    let r := ConvertAssign u.Uint16 v
    ({ Uint16 := r.1, Valid := true }, r.2)

/-- A `driver.Value`, by dynamic type: `nil`, an `int64`, a `time.Duration`. -/
inductive DriverValue where
  | nil
  | int64 (i : Int)
  | duration (d : Int)
  deriving DecidableEq, Repr

/-- The conversion of an integer to `int64`: wrap-around modulo `2 ^ 64`. -/
def toInt64 (n : Int) : Int := (n + 2 ^ 63) % 2 ^ 64 - 2 ^ 63

/-- The method `Uint16.Value`. -/
def Uint16.Value (u : Null.Uint16) : DriverValue × Option GoError :=
  if !u.Valid then (DriverValue.nil, none)
  else (DriverValue.int64 (toInt64 (u.Uint16 : Int)), none)

/-- The method `Uint16.Randomize`; `nextInt` is the `int64` the one call of
`nextInt()` returns (Go's `%` truncates towards zero), and the conversion to
`uint16` wraps modulo `2 ^ 16`. The argument `fieldType` is not used. -/
def Uint16.Randomize (_u : Null.Uint16) (nextInt : Int) (shouldBeNull : Bool) : Null.Uint16 :=
  if shouldBeNull then { Uint16 := 0, Valid := false }
  else { Uint16 := ((Int.tmod nextInt (MaxUint16 : Int)) % 2 ^ 16).toNat, Valid := true }

/-! ## `duration.go` -/

/-- The struct `Duration`: a nullable `time.Duration` (an `int64` count). -/
structure Duration where
  Duration : Int
  Valid : Bool
  deriving DecidableEq, Repr

/-- The constructor `NewDuration`. -/
def NewDuration (d : Int) (valid : Bool) : Duration := { Duration := d, Valid := valid }

/-- The constructor `DurationFrom`. -/
def DurationFrom (d : Int) : Duration := NewDuration d true

/-- The method `Duration.MarshalJSON`. -/
def Duration.MarshalJSON (d : Null.Duration) : Bytes × Option GoError :=
  if !d.Valid then (NullBytes, none) else (FormatInt d.Duration, none)

/-- The method `Duration.UnmarshalJSON`: `json.Unmarshal` writes through
`&d.Duration`, and `Valid` is set only when it returned no error. -/
def Duration.UnmarshalJSON (d : Null.Duration) (data : Bytes) : Null.Duration × Option GoError :=
  if data = NullBytes then ({ Duration := 0, Valid := false }, none)
  else
    match decodeInt64 data d.Duration with
    | (x, some err) => ({ d with Duration := x }, some err)
    | (x, none) => ({ Duration := x, Valid := true }, none)

/-- The constructor `DurationFromPtr`; a `*time.Duration` is `none` when nil. -/
def DurationFromPtr (d : Option Int) : Duration :=
  match d with
  | none => NewDuration 0 false
  | some v => NewDuration v true

/-- The method `Duration.MarshalText`. -/
def Duration.MarshalText (d : Null.Duration) : Bytes × Option GoError :=
  if !d.Valid then ([], none) else (FormatInt d.Duration, none)

/-- The method `Duration.UnmarshalText`; `none` is a nil slice. The parsed
value is assigned also when `ParseInt` failed. -/
def Duration.UnmarshalText (d : Null.Duration) (text : Option Bytes) :
    Null.Duration × Option GoError :=
  match text with
  | none => ({ d with Valid := false }, none)
  | some t =>
    if t.length = 0 then ({ d with Valid := false }, none)
    else
      let r := ParseInt t 64
      ({ Duration := r.1, Valid := r.2.isNone }, r.2)

/-- The method `Duration.SetValid`. -/
def Duration.SetValid (_d : Null.Duration) (v : Int) : Null.Duration :=
  { Duration := v, Valid := true }

/-- The method `Duration.Ptr`. -/
def Duration.Ptr (d : Null.Duration) : Option Int := if !d.Valid then none else some d.Duration

/-- The method `Duration.IsZero`. -/
def Duration.IsZero (d : Null.Duration) : Bool := !d.Valid

/-- The method `Duration.Scan`, with the collaborator as for `Uint16.Scan`. -/
def Duration.Scan {Src E : Type} (ConvertAssign : Int → Src → Int × Option E)
    (d : Null.Duration) (value : Option Src) : Null.Duration × Option E :=
  match value with
  | none => ({ Duration := 0, Valid := false }, none)
  | some v =>
    let r := ConvertAssign d.Duration v
    ({ Duration := r.1, Valid := true }, r.2)

/-- The method `Duration.Value`. -/
def Duration.Value (d : Null.Duration) : DriverValue × Option GoError :=
  if !d.Valid then (DriverValue.nil, none) else (DriverValue.duration d.Duration, none)

/-! ## `float32.go` -/

/-- The floating-point operations `float32.go` uses, over any carrier of the
`float32` and `float64` values: `ofLiteral` is the `float64` the decoder
stores for a number literal (`strconv.ParseFloat(s, 64)`), `parseFloat32` is
`strconv.ParseFloat(str, 32)`, `gtMaxFloat32 r` is `r > math.MaxFloat32`,
`toFloat32` is the conversion `float32(r)`, `isZero32 x` is `x == 0`, and
`formatFloat32 x` is `strconv.FormatFloat(float64(x), 'f', -1, 32)`. -/
structure FloatOps where
  F32 : Type
  F64 : Type
  zero32 : F32
  zero64 : F64
  ofLiteral : Bytes → F64
  parseFloat32 : Bytes → F64 × Option GoError
  gtMaxFloat32 : F64 → Bool
  toFloat32 : F64 → F32
  isZero32 : F32 → Bool
  formatFloat32 : F32 → Bytes

/-- The struct `Float32`: a nullable `float32`. -/
structure Float32 (ops : FloatOps) where
  Float32 : ops.F32
  Valid : Bool

/-- The constructor `NewFloat32`. -/
def NewFloat32 (ops : FloatOps) (f : ops.F32) (valid : Bool) : Float32 ops :=
  { Float32 := f, Valid := valid }

/-- The end of `Float32.UnmarshalJSON`, after the type switch has left `r` and
`err`. -/
def Float32.finishUnmarshalJSON {ops : FloatOps} (f : Null.Float32 ops) (r : ops.F64)
    (err : Option GoError) : Null.Float32 ops × Option GoError :=
  if ops.gtMaxFloat32 r then (f, some GoError.overflowsFloat32)
  else
    let v := ops.toFloat32 r
    ({ Float32 := v, Valid := err.isNone && !ops.isZero32 v }, err)

/-- The method `Float32.UnmarshalJSON`. -/
def Float32.UnmarshalJSON {ops : FloatOps} (f : Null.Float32 ops) (data : Bytes) :
    Null.Float32 ops × Option GoError :=
  if data = NullBytes then ({ Float32 := ops.zero32, Valid := false }, none)
  else
    match decodeInterface data with
    | Except.error err => (f, some err)
    | Except.ok v =>
      match v with
      | IfaceValue.float64 lit => f.finishUnmarshalJSON (ops.ofLiteral lit) none
      | IfaceValue.string str =>
        if str.length = 0 then ({ f with Valid := false }, none)
        else
          let r := ops.parseFloat32 str
          f.finishUnmarshalJSON r.1 r.2
      | IfaceValue.nil => ({ f with Valid := false }, none)
      | IfaceValue.bool _ =>
        f.finishUnmarshalJSON ops.zero64 (some (GoError.cannotUnmarshal DynType.bool))
      | IfaceValue.slice =>
        f.finishUnmarshalJSON ops.zero64 (some (GoError.cannotUnmarshal DynType.slice))
      | IfaceValue.map =>
        f.finishUnmarshalJSON ops.zero64 (some (GoError.cannotUnmarshal DynType.map))

/-- The method `Float32.MarshalJSON`. -/
def Float32.MarshalJSON {ops : FloatOps} (f : Null.Float32 ops) : Bytes × Option GoError :=
  if !f.Valid then (NullBytes, none) else (ops.formatFloat32 f.Float32, none)

/-- The constructor `Float32From`. -/
def Float32From (ops : FloatOps) (f : ops.F32) : Float32 ops := NewFloat32 ops f true

/-- The constructor `Float32FromPtr`; a `*float32` is `none` when nil. -/
def Float32FromPtr (ops : FloatOps) (f : Option ops.F32) : Float32 ops :=
  match f with
  | none => NewFloat32 ops ops.zero32 false
  | some v => NewFloat32 ops v true

/-- The method `Float32.SetValid`. -/
def Float32.SetValid {ops : FloatOps} (_f : Null.Float32 ops) (n : ops.F32) : Null.Float32 ops :=
  { Float32 := n, Valid := true }

/-- The method `Float32.Ptr`. -/
def Float32.Ptr {ops : FloatOps} (f : Null.Float32 ops) : Option ops.F32 :=
  if !f.Valid then none else some f.Float32

/-- The method `Float32.IsZero`. -/
def Float32.IsZero {ops : FloatOps} (f : Null.Float32 ops) : Bool := !f.Valid

/-- The method `Float32.Scan`, with the collaborator as for `Uint16.Scan`. -/
def Float32.Scan {ops : FloatOps} {Src E : Type}
    (ConvertAssign : ops.F32 → Src → ops.F32 × Option E) (f : Null.Float32 ops)
    (value : Option Src) : Null.Float32 ops × Option E :=
  match value with
  | none => ({ Float32 := ops.zero32, Valid := false }, none)
  | some v =>
    let r := ConvertAssign f.Float32 v
    ({ Float32 := r.1, Valid := true }, r.2)

/-! ## Binary floating point (IEEE 754), for the number path of `float32.go` -/

/-- A floating-point value: `finite neg m e` is `(-1) ^ neg * m * 2 ^ e`. -/
inductive FloatVal where
  | finite (neg : Bool) (m : Nat) (e : Int)
  | inf (neg : Bool)
  | nan
  deriving DecidableEq, Repr

/-- Whether `n / d ≥ 2 ^ k`. -/
def ratioGePow2 (n d : Nat) (k : Int) : Bool :=
  if 0 ≤ k then decide (n ≥ d * 2 ^ k.toNat) else decide (n * 2 ^ (-k).toNat ≥ d)

/-- The binary logarithm of `n`, rounded down (0 for `n < 2`), by halving;
`fuel` at least `n` is never used up. -/
def log2Fuel : Nat → Nat → Nat
  | 0, _ => 0
  | fuel + 1, n => if n < 2 then 0 else log2Fuel fuel (n / 2) + 1

/-- The integer `k` with `2 ^ k ≤ n / d < 2 ^ (k + 1)`, for positive `n`, `d`. -/
def floorLog2 (n d : Nat) : Int :=
  let k0 : Int := (log2Fuel n n : Int) - (log2Fuel d d : Int)
  if ratioGePow2 n d k0 then k0 else k0 - 1

/-- Rounds the non-negative rational `n / d` to the nearest value of the
binary format with `p` bits of precision and the exponent range `emin..emax`,
ties to even, subnormals included: the result `(m, e)` is `m * 2 ^ e`, and
`none` is overflow (the value rounds to at least `2 ^ (emax + 1)`). -/
def roundBinary (p : Nat) (emin emax : Int) (n d : Nat) : Option (Nat × Int) :=
  if n = 0 then some (0, 0)
  else
    let k := floorLog2 n d
    let eu : Int := max (k - ((p : Int) - 1)) (emin - ((p : Int) - 1))
    let num := if eu < 0 then n * 2 ^ (-eu).toNat else n
    let den := if eu < 0 then d else d * 2 ^ eu.toNat
    let q := num / den
    let r := num % den
    let m := if 2 * r > den ∨ (2 * r = den ∧ q % 2 = 1) then q + 1 else q
    if ratioGePow2 m 1 (emax + 1 - eu) then none else some (m, eu)

/-- The float64 `strconv.ParseFloat(item, 64)` returns for a JSON number
literal: the decimal value, correctly rounded; infinite on overflow. -/
def parseFloat64Literal (item : Bytes) : FloatVal :=
  let neg := decide (item.head? = some 45)
  let p := numberParts item
  let m := decVal (p.intDigits ++ p.fracDigits) 0
  let e := decVal p.expDigits 0
  let n := if !p.expNeg && decide (e ≥ p.fracDigits.length)
    then m * 10 ^ (e - p.fracDigits.length) else m
  let d := if p.expNeg then 10 ^ (e + p.fracDigits.length)
    else if e ≥ p.fracDigits.length then 1 else 10 ^ (p.fracDigits.length - e)
  match roundBinary 53 (-1022) 1023 n d with
  | some (m2, e2) => FloatVal.finite neg m2 e2
  | none => FloatVal.inf neg

/-- The conversion `float32(r)` of a float64: rounding to nearest, ties to
even; a magnitude beyond the float32 range becomes an infinity. -/
def toFloat32 (r : FloatVal) : FloatVal :=
  match r with
  | FloatVal.finite neg m e =>
    let n := if e < 0 then m else m * 2 ^ e.toNat
    let d := if e < 0 then 2 ^ (-e).toNat else 1
    match roundBinary 24 (-126) 127 n d with
    | some (m2, e2) => FloatVal.finite neg m2 e2
    | none => FloatVal.inf neg
  | FloatVal.inf neg => FloatVal.inf neg
  | FloatVal.nan => FloatVal.nan

/-- The comparison `r > math.MaxFloat32`; `math.MaxFloat32` is
`(2 ^ 24 - 1) * 2 ^ 104`. -/
def gtMaxFloat32 (r : FloatVal) : Bool :=
  match r with
  | FloatVal.finite neg m e =>
    !neg && (if e < 0 then decide (m > (2 ^ 24 - 1) * 2 ^ 104 * 2 ^ (-e).toNat)
      else decide (m * 2 ^ e.toNat > (2 ^ 24 - 1) * 2 ^ 104))
  | FloatVal.inf neg => !neg
  | FloatVal.nan => false

/-- The comparison `x == 0` (true of both zeros). -/
def floatIsZero (x : FloatVal) : Bool :=
  match x with
  | FloatVal.finite _ m _ => decide (m = 0)
  | _ => false

/-- The floating-point operations of `float32.go` over `FloatVal`. The two
that only the string path and `MarshalJSON` use, `strconv.ParseFloat(str, 32)`
and `strconv.FormatFloat`, stay parameters. -/
def ieeeOps (parseFloat32 : Bytes → FloatVal × Option GoError)
    (formatFloat32 : FloatVal → Bytes) : FloatOps :=
  { F32 := FloatVal, F64 := FloatVal,
    zero32 := FloatVal.finite false 0 0, zero64 := FloatVal.finite false 0 0,
    ofLiteral := parseFloat64Literal, parseFloat32 := parseFloat32,
    gtMaxFloat32 := gtMaxFloat32, toFloat32 := toFloat32, isZero32 := floatIsZero,
    formatFloat32 := formatFloat32 }

/-! ## Predicates and scanner states the statements use -/

/-- Every byte of the list is a decimal digit. -/
def AllDigits (ds : Bytes) : Prop := ∀ c ∈ ds, isDigit c = true

instance (ds : Bytes) : Decidable (AllDigits ds) := by
  unfold AllDigits
  infer_instance

/-- The scanner inside a number that began with a non-zero digit. -/
def scanner1 : Scanner :=
  { step := Step.state1, endTop := false, parseState := [], err := false }

theorem isDigit_iff (c : Nat) : isDigit c = true ↔ 48 ≤ c ∧ c ≤ 57 := by
  simp [isDigit]

theorem allDigits_cons {c : Nat} {ds : Bytes} (h : AllDigits (c :: ds)) :
    (48 ≤ c ∧ c ≤ 57) ∧ AllDigits ds :=
  ⟨(isDigit_iff c).1 (h c (List.mem_cons_self c ds)),
    fun x hx => h x (List.mem_cons_of_mem c hx)⟩

theorem decVal_append (a : Nat) (xs ys : Bytes) :
    decVal (xs ++ ys) a = decVal ys (decVal xs a) := by
  induction xs generalizing a with
  | nil => rfl
  | cons x xs ih =>
    simp only [List.cons_append, decVal]
    exact ih _

theorem le_decVal (a : Nat) (ds : Bytes) : a ≤ decVal ds a := by
  induction ds generalizing a with
  | nil => exact Nat.le_refl a
  | cons c cs ih =>
    have h := ih (a * 10 + (c - 48))
    simp only [decVal]
    omega

/-- The digits `formatBits` writes: a non-empty run of decimal digits whose
value is `u`, in front of `acc`, with no leading zero unless `u = 0`. -/
theorem formatBits_spec (fuel : Nat) : ∀ (u : Nat) (acc : Bytes), u < 10 ^ fuel → 0 < fuel →
    ∃ c t, formatBits fuel u acc = (c :: t) ++ acc ∧ AllDigits (c :: t) ∧
      decVal (c :: t) 0 = u ∧ (0 < u → 49 ≤ c) := by
  induction fuel with
  | zero => intro u acc _ h; exact absurd h (Nat.lt_irrefl 0)
  | succ fuel ih =>
    intro u acc hu _
    by_cases h10 : u < 10
    · refine ⟨48 + u, [], ?_, ?_, ?_, ?_⟩
      · simp [formatBits, h10]
      · intro x hx
        simp at hx
        subst hx
        exact (isDigit_iff _).2 ⟨by omega, by omega⟩
      · simp [decVal]
      · intro h; omega
    · have hfuel : 0 < fuel := by
        rcases Nat.eq_zero_or_pos fuel with h0 | h0
        · subst h0; simp at hu; omega
        · exact h0
      have hdiv : u / 10 < 10 ^ fuel := by
        rw [Nat.div_lt_iff_lt_mul (by decide)]
        rw [pow_succ] at hu
        exact hu
      obtain ⟨c, t, heq, hall, hval, hhead⟩ := ih (u / 10) ((48 + u % 10) :: acc) hdiv hfuel
      refine ⟨c, t ++ [48 + u % 10], ?_, ?_, ?_, ?_⟩
      · simp [formatBits, h10, heq]
      · intro x hx
        rcases List.mem_cons.1 hx with hx | hx
        · exact hall x (hx ▸ List.mem_cons_self c t)
        · rcases List.mem_append.1 hx with hx | hx
          · exact hall x (List.mem_cons_of_mem c hx)
          · simp at hx
            subst hx
            exact (isDigit_iff _).2 ⟨by omega, by omega⟩
      · have : c :: (t ++ [48 + u % 10]) = (c :: t) ++ [48 + u % 10] := rfl
        rw [this, decVal_append, hval]
        simp [decVal]
        omega
      · intro _
        exact hhead (by omega)

/-- On a run of digits whose value fits, the loop of `ParseUint` returns the
value and no error. -/
theorem parseUintLoop_ok (s0 : Bytes) (bitSize : Nat) (hb : bitSize ≤ 64) :
    ∀ (ds : Bytes) (a : Nat), AllDigits ds → decVal ds a ≤ 2 ^ bitSize - 1 →
      parseUintLoop s0 bitSize ds a = (decVal ds a, none) := by
  have hM : 2 ^ bitSize ≤ 2 ^ 64 := Nat.pow_le_pow_right (by decide) hb
  intro ds
  induction ds with
  | nil => intro a _ _; rfl
  | cons c cs ih =>
    intro a hall hle
    obtain ⟨hc, hcs⟩ := allDigits_cons hall
    have hmono := le_decVal (a * 10 + (c - 48)) cs
    simp only [decVal] at hle
    have hd : isDigit c = true := (isDigit_iff c).2 hc
    have h64 : (2 : Nat) ^ 64 = 18446744073709551616 := by norm_num
    have hcut : ¬ a ≥ maxUint64 / 10 + 1 := by
      simp only [maxUint64]
      omega
    have hn10 : (a * 10) % 2 ^ 64 = a * 10 := Nat.mod_eq_of_lt (by omega)
    have hn1 : (a * 10 + (c - 48)) % 2 ^ 64 = a * 10 + (c - 48) := Nat.mod_eq_of_lt (by omega)
    have hno : ¬ (a * 10 + (c - 48) < a * 10 ∨ a * 10 + (c - 48) > 2 ^ bitSize - 1) := by
      omega
    simp only [parseUintLoop, hd, if_true, hcut, if_false, hn10, hn1, hno, decVal]
    exact ih (a * 10 + (c - 48)) hcs hle

/-- On a run of digits whose value does not fit, the loop of `ParseUint`
returns `maxVal` and the range error. -/
theorem parseUintLoop_range (s0 : Bytes) (bitSize : Nat) (hb : bitSize ≤ 64) :
    ∀ (ds : Bytes) (a : Nat), AllDigits ds → a ≤ 2 ^ bitSize - 1 →
      2 ^ bitSize - 1 < decVal ds a →
      parseUintLoop s0 bitSize ds a = (2 ^ bitSize - 1, some (GoError.numRange s0)) := by
  have hM : 2 ^ bitSize ≤ 2 ^ 64 := Nat.pow_le_pow_right (by decide) hb
  intro ds
  induction ds with
  | nil => intro a _ ha hlt; simp only [decVal] at hlt; omega
  | cons c cs ih =>
    intro a hall ha hlt
    obtain ⟨hc, hcs⟩ := allDigits_cons hall
    have hd : isDigit c = true := (isDigit_iff c).2 hc
    have h64 : (2 : Nat) ^ 64 = 18446744073709551616 := by norm_num
    simp only [decVal] at hlt
    by_cases hcut : a ≥ maxUint64 / 10 + 1
    · simp only [parseUintLoop, hd, if_true, hcut]
    · have hcut2 : a < 1844674407370955162 := by
        simp only [maxUint64] at hcut
        omega
      have hn10 : (a * 10) % 2 ^ 64 = a * 10 := Nat.mod_eq_of_lt (by omega)
      simp only [parseUintLoop, hd, if_true, hcut, if_false, hn10]
      by_cases hov : (a * 10 + (c - 48)) % 2 ^ 64 < a * 10 ∨
          (a * 10 + (c - 48)) % 2 ^ 64 > 2 ^ bitSize - 1
      · simp only [hov, if_true]
      · simp only [hov, if_false]
        have hlt64 : a * 10 + (c - 48) < 2 ^ 64 := by
          by_contra hge
          have : (a * 10 + (c - 48)) % 2 ^ 64 = a * 10 + (c - 48) - 2 ^ 64 := by
            rw [Nat.mod_eq_sub_mod (by omega)]
            exact Nat.mod_eq_of_lt (by omega)
          omega
        have hn1 : (a * 10 + (c - 48)) % 2 ^ 64 = a * 10 + (c - 48) := Nat.mod_eq_of_lt hlt64
        rw [hn1] at hov ⊢
        exact ih (a * 10 + (c - 48)) hcs (by omega) hlt

/-! ## The scanner and the decoder on a decimal numeral -/

theorem checkValidLoop_digits : ∀ (ds : Bytes), AllDigits ds →
    checkValidLoop ds scanner1 = some scanner1 := by
  intro ds
  induction ds with
  | nil => intro _; rfl
  | cons c cs ih =>
    intro hall
    obtain ⟨hc, hcs⟩ := allDigits_cons hall
    have hd : isDigit c = true := (isDigit_iff c).2 hc
    have hstep : scanner1.doStep c = (scanner1, Op.scanContinue) := by
      simp [Scanner.doStep, scanner1, hd]
    simp only [checkValidLoop, hstep]
    exact ih hcs

/-- A numeral with a non-zero first digit is valid JSON. -/
theorem checkValid_numeral (c : Nat) (ds : Bytes) (hc : 49 ≤ c ∧ c ≤ 57) (hds : AllDigits ds) :
    checkValid (c :: ds) = none := by
  have hstep : Scanner.reset.doStep c = (scanner1, Op.scanBeginLiteral) := by
    have h1 : c ≠ 123 := by omega
    have h2 : c ≠ 91 := by omega
    have h3 : c ≠ 34 := by omega
    have h4 : c ≠ 45 := by omega
    have h5 : c ≠ 48 := by omega
    have h6 : c ≠ 116 := by omega
    have h7 : c ≠ 102 := by omega
    have h8 : c ≠ 110 := by omega
    have h9 : isSpace c = false := by
      simp [isSpace]; omega
    simp [Scanner.doStep, Scanner.reset, stateBeginValue, scanner1, h1, h2, h3, h4, h5, h6, h7,
      h8, h9, hc.1, hc.2]
  simp only [checkValid, checkValidLoop, hstep, checkValidLoop_digits ds hds]
  rfl

/-- A minus sign and a numeral with a non-zero first digit are valid JSON. -/
theorem checkValid_negNumeral (c : Nat) (ds : Bytes) (hc : 49 ≤ c ∧ c ≤ 57)
    (hds : AllDigits ds) : checkValid (45 :: c :: ds) = none := by
  have hstep0 : Scanner.reset.doStep 45 =
      ({ step := Step.stateNeg, endTop := false, parseState := [], err := false },
        Op.scanBeginLiteral) := by rfl
  have hstep : Scanner.doStep
      { step := Step.stateNeg, endTop := false, parseState := [], err := false } c =
      (scanner1, Op.scanContinue) := by
    have h5 : c ≠ 48 := by omega
    simp [Scanner.doStep, scanner1, h5, hc.1, hc.2]
  simp only [checkValid, checkValidLoop, hstep0, hstep, checkValidLoop_digits ds hds]
  rfl

theorem rescanNumber_digits : ∀ (ds : Bytes), AllDigits ds → rescanNumber ds = ds := by
  intro ds
  induction ds with
  | nil => intro _; rfl
  | cons c cs ih =>
    intro hall
    obtain ⟨hc, hcs⟩ := allDigits_cons hall
    have hd : isDigit c = true := (isDigit_iff c).2 hc
    simp [rescanNumber, hd, ih hcs]

/-- The decoder's literal for a numeral is the numeral. -/
theorem topValue_numeral (c : Nat) (ds : Bytes) (hc : 48 ≤ c ∧ c ≤ 57) (hds : AllDigits ds) :
    topValue (c :: ds) = TopValue.literal (c :: ds) := by
  have h1 : c ≠ 123 := by omega
  have h2 : c ≠ 91 := by omega
  have h3 : c ≠ 34 := by omega
  have h9 : isSpace c = false := by
    simp [isSpace]; omega
  have hd : isDigit c = true := (isDigit_iff c).2 hc
  simp [topValue, skipSpace, h9, h1, h2, rescanLiteral, h3, hd, rescanNumber_digits ds hds]

/-- The decoder's literal for a negative numeral is the numeral. -/
theorem topValue_negNumeral (ds : Bytes) (hds : AllDigits ds) :
    topValue (45 :: ds) = TopValue.literal (45 :: ds) := by
  have h9 : isSpace 45 = false := by decide
  simp [topValue, skipSpace, h9, rescanLiteral, rescanNumber_digits ds hds]

theorem takeWhile_digits : ∀ (ds : Bytes), AllDigits ds → ds.takeWhile isDigit = ds := by
  intro ds hall
  exact List.takeWhile_eq_self_iff.2 hall

theorem dropWhile_digits : ∀ (ds : Bytes), AllDigits ds → ds.dropWhile isDigit = [] := by
  intro ds hall
  exact List.dropWhile_eq_nil_iff.2 hall

/-- A numeral below `2 ^ 64` is converted to a float64 without a range error. -/
theorem float64Overflows_numeral (c : Nat) (ds : Bytes) (hc : 48 ≤ c ∧ c ≤ 57)
    (hds : AllDigits ds) (hlt : decVal (c :: ds) 0 < 2 ^ 64) :
    float64Overflows (c :: ds) = false := by
  have hall : AllDigits (c :: ds) := by
    intro x hx
    rcases List.mem_cons.1 hx with hx | hx
    · exact hx ▸ (isDigit_iff c).2 hc
    · exact hds x hx
  have hparts : numberParts (c :: ds) =
      { intDigits := c :: ds, fracDigits := [], expNeg := false, expDigits := [] } := by
    have h45 : c ≠ 45 := by omega
    unfold numberParts
    split
    · rename_i t heq
      simp at heq
      omega
    · simp [takeWhile_digits _ hall, dropWhile_digits _ hall]
  have hb : (2 : Nat) ^ 64 < 2 ^ 1024 - 2 ^ 970 := by norm_num
  have hv : decVal (c :: ds) 0 = decVal ds (c - 48) := by simp [decVal]
  rw [hv] at hlt
  simp only [float64Overflows, hparts, List.append_nil, decVal, List.length_nil]
  simp
  omega

theorem allDigits_of_cons {c : Nat} {ds : Bytes} (hc : 48 ≤ c ∧ c ≤ 57) (hds : AllDigits ds) :
    AllDigits (c :: ds) := by
  intro x hx
  rcases List.mem_cons.1 hx with hx | hx
  · exact hx ▸ (isDigit_iff c).2 hc
  · exact hds x hx

/-- The generic decode of a numeral below `2 ^ 64` is a float64. -/
theorem decodeInterface_numeral (c : Nat) (ds : Bytes) (hc : 49 ≤ c ∧ c ≤ 57)
    (hds : AllDigits ds) (hlt : decVal (c :: ds) 0 < 2 ^ 64) :
    decodeInterface (c :: ds) = Except.ok (IfaceValue.float64 (c :: ds)) := by
  have h1 : c ≠ 110 := by omega
  have h2 : c ≠ 116 := by omega
  have h3 : c ≠ 102 := by omega
  have h4 : c ≠ 34 := by omega
  have h5 : ¬ (c ≠ 45 ∧ (c < 48 ∨ c > 57)) := by omega
  simp only [decodeInterface, checkValid_numeral c ds hc hds,
    topValue_numeral c ds ⟨by omega, hc.2⟩ hds, literalInterface, h1, h2, h3, h4, h5,
    float64Overflows_numeral c ds ⟨by omega, hc.2⟩ hds hlt, if_false, or_self]
  simp

/-- The decode of a numeral below `2 ^ 64` into a `uint64` is its value. -/
theorem decodeUint64_numeral (c : Nat) (ds : Bytes) (hc : 49 ≤ c ∧ c ≤ 57)
    (hds : AllDigits ds) (hlt : decVal (c :: ds) 0 < 2 ^ 64) (cur : Nat) :
    decodeUint64 (c :: ds) cur = (decVal (c :: ds) 0, none) := by
  have h1 : c ≠ 110 := by omega
  have h2 : c ≠ 116 := by omega
  have h3 : c ≠ 102 := by omega
  have h4 : c ≠ 34 := by omega
  have hp : ParseUint (c :: ds) 64 = (decVal (c :: ds) 0, none) := by
    simp only [ParseUint, if_false, reduceCtorEq]
    exact parseUintLoop_ok (c :: ds) 64 (Nat.le_refl 64) (c :: ds) 0
      (allDigits_of_cons ⟨by omega, hc.2⟩ hds) (by omega)
  simp only [decodeUint64, checkValid_numeral c ds hc hds,
    topValue_numeral c ds ⟨by omega, hc.2⟩ hds, h1, h2, h3, h4, if_false, or_self, hp]

/-- The method `Uint16.UnmarshalJSON` on a numeral below `2 ^ 64` with a
non-zero first digit: the range check and the assignment run on its value. -/
theorem uint16_UnmarshalJSON_numeral (u : Null.Uint16) (c : Nat) (ds : Bytes)
    (hc : 49 ≤ c ∧ c ≤ 57) (hds : AllDigits ds) (hlt : decVal (c :: ds) 0 < 2 ^ 64) :
    u.UnmarshalJSON (c :: ds) = u.finishUnmarshalJSON (decVal (c :: ds) 0) none := by
  have hnull : c :: ds ≠ NullBytes := by
    intro h
    simp [NullBytes] at h
    omega
  simp only [Uint16.UnmarshalJSON, hnull, if_false, decodeInterface_numeral c ds hc hds hlt,
    decodeUint64_numeral c ds hc hds hlt]

/-- The text `FormatUint` writes for a positive `uint64`: a numeral with a
non-zero first digit and the value `n`. -/
theorem FormatUint_spec (n : Nat) (h0 : 0 < n) (hn : n < 2 ^ 64) :
    ∃ c t, FormatUint n = c :: t ∧ (49 ≤ c ∧ c ≤ 57) ∧ AllDigits t ∧ decVal (c :: t) 0 = n := by
  have h20 : n < 10 ^ 20 := by
    have : (2 : Nat) ^ 64 < 10 ^ 20 := by norm_num
    omega
  obtain ⟨c, t, heq, hall, hval, hhead⟩ := formatBits_spec 20 n [] h20 (by decide)
  obtain ⟨hc, ht⟩ := allDigits_cons hall
  exact ⟨c, t, by simpa [FormatUint] using heq, ⟨hhead h0, hc.2⟩, ht, hval⟩

/-- C1: for every non-zero uint16 `v` and every prior state `u` of the
receiver, `Uint16From(v).MarshalJSON()` returns no error and
`UnmarshalJSON` of its bytes returns no error and leaves
`{Uint16: v, Valid: true}`. -/
theorem C1_uint16_json_roundtrip (u : Null.Uint16) (v : Nat) (h0 : v ≠ 0) (hv : v < 2 ^ 16) :
    (Uint16From v).MarshalJSON.2 = none ∧
    u.UnmarshalJSON (Uint16From v).MarshalJSON.1 = ({ Uint16 := v, Valid := true }, none) := by
  have h64 : (2 : Nat) ^ 16 < 2 ^ 64 := by norm_num
  obtain ⟨c, t, heq, hc, ht, hval⟩ := FormatUint_spec v (Nat.pos_of_ne_zero h0) (by omega)
  have hm : (Uint16From v).MarshalJSON = (FormatUint v, none) := by
    simp [Uint16.MarshalJSON, Uint16From, NewUint16]
  rw [hm, heq]
  refine ⟨rfl, ?_⟩
  show u.UnmarshalJSON (c :: t) = _
  rw [uint16_UnmarshalJSON_numeral u c t hc ht (by omega), hval]
  have h16 : (2 : Nat) ^ 16 = 65536 := by norm_num
  have hle : ¬ v > MaxUint16 := by simp only [MaxUint16]; omega
  have hmod : v % 2 ^ 16 = v := Nat.mod_eq_of_lt hv
  simp only [Uint16.finishUnmarshalJSON, hle, if_false, hmod]
  simp [h0]

/-- C1 at `v = 258` with a receiver that held another valid value. -/
theorem C1_uint16_json_roundtrip_witness :
    (258 ≠ 0 ∧ 258 < 2 ^ 16) ∧
    ((Uint16From 258).MarshalJSON.2 = none ∧
      Uint16.UnmarshalJSON { Uint16 := 7, Valid := true } (Uint16From 258).MarshalJSON.1 =
        ({ Uint16 := 258, Valid := true }, none)) :=
  ⟨by decide, C1_uint16_json_roundtrip { Uint16 := 7, Valid := true } 258 (by decide) (by decide)⟩

/-- The function `ParseInt` on a numeral whose value is below `2 ^ 63`. -/
theorem ParseInt_numeral (c : Nat) (ds : Bytes) (hc : 48 ≤ c ∧ c ≤ 57) (hds : AllDigits ds)
    (hlt : decVal (c :: ds) 0 < 2 ^ 63) :
    ParseInt (c :: ds) 64 = (((decVal (c :: ds) 0 : Nat) : Int), none) := by
  have h63 : (2 : Nat) ^ 63 = 9223372036854775808 := by norm_num
  have h64 : (2 : Nat) ^ 64 = 18446744073709551616 := by norm_num
  have h1 : c ≠ 43 := by omega
  have h2 : c ≠ 45 := by omega
  have hp : ParseUint (c :: ds) 64 = (decVal (c :: ds) 0, none) := by
    simp only [ParseUint, if_false, reduceCtorEq]
    exact parseUintLoop_ok (c :: ds) 64 (Nat.le_refl 64) (c :: ds) 0
      (allDigits_of_cons hc hds) (by omega)
  have hge : ¬ decVal (c :: ds) 0 ≥ 2 ^ (64 - 1) := by
    have : (64 : Nat) - 1 = 63 := rfl
    rw [this]; omega
  simp only [ParseInt, h1, h2, or_self, if_false, hp, decide_False, Bool.not_false,
    Bool.true_and, decide_eq_true_eq, hge, Bool.false_and, Bool.false_eq_true]

/-- The function `ParseInt` on a minus sign and a numeral whose value is at
most `2 ^ 63`. -/
theorem ParseInt_negNumeral (ds : Bytes) (hds : AllDigits ds) (hne : ds ≠ [])
    (hle : decVal ds 0 ≤ 2 ^ 63) :
    ParseInt (45 :: ds) 64 = (-((decVal ds 0 : Nat) : Int), none) := by
  have h63 : (2 : Nat) ^ 63 = 9223372036854775808 := by norm_num
  have h64 : (2 : Nat) ^ 64 = 18446744073709551616 := by norm_num
  have hp : ParseUint ds 64 = (decVal ds 0, none) := by
    simp only [ParseUint, hne, if_false]
    exact parseUintLoop_ok ds 64 (Nat.le_refl 64) ds 0 hds (by omega)
  have hgt : ¬ decVal ds 0 > 2 ^ (64 - 1) := by
    have : (64 : Nat) - 1 = 63 := rfl
    rw [this]; omega
  simp only [ParseInt, or_true, if_true, hp, decide_True, Bool.not_true, Bool.false_and,
    Bool.false_eq_true, if_false, Bool.true_and, decide_eq_true_eq, hgt]

/-- The text `FormatInt` writes for a non-negative `int64`. -/
theorem FormatInt_nonneg (n : Int) (h0 : 0 ≤ n) (hn : n < 2 ^ 63) :
    FormatInt n = FormatUint n.toNat := by
  have hmod : n % 2 ^ 64 = n := Int.emod_eq_of_lt h0 (by omega)
  simp only [FormatInt, FormatUint, not_lt.2 h0, if_false, hmod]

/-- The text `FormatInt` writes for a negative `int64`. -/
theorem FormatInt_neg (n : Int) (h0 : n < 0) (hn : -2 ^ 63 ≤ n) :
    FormatInt n = 45 :: FormatUint (-n).toNat := by
  have hu : (n % 2 ^ 64).toNat = 2 ^ 64 - (-n).toNat := by omega
  have hm : (2 ^ 64 - (2 ^ 64 - (-n).toNat)) % 2 ^ 64 = (-n).toNat := by omega
  simp only [FormatInt, h0, if_true, FormatUint, hu, hm]

/-- The method `Duration.UnmarshalJSON` on a numeral below `2 ^ 63` with a
non-zero first digit. -/
theorem duration_UnmarshalJSON_numeral (d : Null.Duration) (c : Nat) (ds : Bytes)
    (hc : 49 ≤ c ∧ c ≤ 57) (hds : AllDigits ds) (hlt : decVal (c :: ds) 0 < 2 ^ 63) :
    d.UnmarshalJSON (c :: ds) =
      ({ Duration := ((decVal (c :: ds) 0 : Nat) : Int), Valid := true }, none) := by
  have hnull : c :: ds ≠ NullBytes := by
    intro h
    simp [NullBytes] at h
    omega
  have h1 : c ≠ 110 := by omega
  have h2 : c ≠ 116 := by omega
  have h3 : c ≠ 102 := by omega
  have h4 : c ≠ 34 := by omega
  simp only [Duration.UnmarshalJSON, hnull, if_false, decodeInt64, checkValid_numeral c ds hc hds,
    topValue_numeral c ds ⟨by omega, hc.2⟩ hds, h1, h2, h3, h4, or_self,
    ParseInt_numeral c ds ⟨by omega, hc.2⟩ hds hlt]

/-- The method `Duration.UnmarshalJSON` on a minus sign and a numeral of at
most `2 ^ 63` with a non-zero first digit. -/
theorem duration_UnmarshalJSON_negNumeral (d : Null.Duration) (c : Nat) (ds : Bytes)
    (hc : 49 ≤ c ∧ c ≤ 57) (hds : AllDigits ds) (hle : decVal (c :: ds) 0 ≤ 2 ^ 63) :
    d.UnmarshalJSON (45 :: c :: ds) =
      ({ Duration := -((decVal (c :: ds) 0 : Nat) : Int), Valid := true }, none) := by
  have hnull : 45 :: c :: ds ≠ NullBytes := by
    intro h
    simp [NullBytes] at h
  have hall : AllDigits (c :: ds) := allDigits_of_cons ⟨by omega, hc.2⟩ hds
  simp only [Duration.UnmarshalJSON, hnull, if_false, decodeInt64,
    checkValid_negNumeral c ds hc hds, topValue_negNumeral (c :: ds) hall,
    ParseInt_negNumeral (c :: ds) hall (by simp) hle]
  simp

/-- C2: for every int64 count `n` (zero and negative counts too) and every
prior state `d` of the receiver, `DurationFrom(n).MarshalJSON()` returns no
error and `UnmarshalJSON` of its bytes returns no error and leaves
`{Duration: n, Valid: true}`; and the input `9203685806` leaves
`{9203685806, true}`. -/
theorem C2_duration_json_roundtrip (d : Null.Duration) :
    (∀ n : Int, -2 ^ 63 ≤ n → n < 2 ^ 63 →
      (DurationFrom n).MarshalJSON.2 = none ∧
      d.UnmarshalJSON (DurationFrom n).MarshalJSON.1 = ({ Duration := n, Valid := true }, none)) ∧
    d.UnmarshalJSON [57, 50, 48, 51, 54, 56, 53, 56, 48, 54] =
      ({ Duration := 9203685806, Valid := true }, none) := by
  have h63 : (2 : Nat) ^ 63 = 9223372036854775808 := by norm_num
  have h64 : (2 : Nat) ^ 64 = 18446744073709551616 := by norm_num
  have main : ∀ n : Int, -2 ^ 63 ≤ n → n < 2 ^ 63 →
      d.UnmarshalJSON (FormatInt n) = ({ Duration := n, Valid := true }, none) := by
    intro n hlo hhi
    rcases lt_trichotomy n 0 with hneg | hzero | hpos
    · obtain ⟨c, t, heq, hc, ht, hval⟩ := FormatUint_spec (-n).toNat (by omega) (by omega)
      rw [FormatInt_neg n hneg hlo, heq,
        duration_UnmarshalJSON_negNumeral d c t hc ht (by omega), hval]
      have : -(((-n).toNat : Nat) : Int) = n := by omega
      rw [this]
    · subst hzero
      rfl
    · obtain ⟨c, t, heq, hc, ht, hval⟩ := FormatUint_spec n.toNat (by omega) (by omega)
      rw [FormatInt_nonneg n (by omega) hhi, heq,
        duration_UnmarshalJSON_numeral d c t hc ht (by omega), hval]
      have : ((n.toNat : Nat) : Int) = n := by omega
      rw [this]
  refine ⟨?_, ?_⟩
  · intro n hlo hhi
    have hm : (DurationFrom n).MarshalJSON = (FormatInt n, none) := by
      simp [Duration.MarshalJSON, DurationFrom, NewDuration]
    rw [hm]
    exact ⟨rfl, main n hlo hhi⟩
  · exact main 9203685806 (by norm_num) (by norm_num)

/-- C2 at the most negative count, `-2 ^ 63`, with a receiver that held
another valid value. -/
theorem C2_duration_json_roundtrip_witness :
    (-2 ^ 63 ≤ (-9223372036854775808 : Int) ∧ (-9223372036854775808 : Int) < 2 ^ 63) ∧
    ((DurationFrom (-9223372036854775808)).MarshalJSON.2 = none ∧
      Duration.UnmarshalJSON { Duration := 7, Valid := true }
        (DurationFrom (-9223372036854775808)).MarshalJSON.1 =
        ({ Duration := -9223372036854775808, Valid := true }, none)) :=
  ⟨by decide, (C2_duration_json_roundtrip { Duration := 7, Valid := true }).1
    (-9223372036854775808) (by decide) (by decide)⟩

/-- C3: for each of `Duration`, `Float32` and `Uint16`, `MarshalJSON` of a
wrapper with `Valid == false` returns exactly the null literal and no error,
whatever value is stored, and `UnmarshalJSON` of exactly the null literal
returns no error and leaves the zero value with `Valid == false`, whatever the
prior state; the null literal is the four bytes `null`. -/
theorem C3_null_literal_roundtrip (ops : FloatOps) :
    NullBytes = [110, 117, 108, 108] ∧
    (∀ x : Int, (NewDuration x false).MarshalJSON = (NullBytes, none)) ∧
    (∀ x : ops.F32, (NewFloat32 ops x false).MarshalJSON = (NullBytes, none)) ∧
    (∀ x : Nat, (NewUint16 x false).MarshalJSON = (NullBytes, none)) ∧
    (∀ d : Null.Duration, d.UnmarshalJSON NullBytes = ({ Duration := 0, Valid := false }, none)) ∧
    (∀ f : Null.Float32 ops,
      f.UnmarshalJSON NullBytes = ({ Float32 := ops.zero32, Valid := false }, none)) ∧
    (∀ u : Null.Uint16, u.UnmarshalJSON NullBytes = ({ Uint16 := 0, Valid := false }, none)) := by
  refine ⟨rfl, ?_, ?_, ?_, ?_, ?_, ?_⟩
  · intro x; rfl
  · intro x; rfl
  · intro x; rfl
  · intro d; simp [Duration.UnmarshalJSON]
  · intro f; simp [Float32.UnmarshalJSON]
  · intro u; simp [Uint16.UnmarshalJSON]

/-- C4: for every prior state `u` of a `Uint16` receiver, `UnmarshalJSON` of
the JSON number `0` and of the JSON string `"0"` return no error and leave
`Valid == false` (with the value 0), and `UnmarshalText` of the text `0`
returns no error and leaves `{Uint16: 0, Valid: true}`. -/
theorem C4_uint16_zero_suppression (u : Null.Uint16) :
    u.UnmarshalJSON [48] = ({ Uint16 := 0, Valid := false }, none) ∧
    u.UnmarshalJSON [34, 48, 34] = ({ Uint16 := 0, Valid := false }, none) ∧
    u.UnmarshalText (some [48]) = ({ Uint16 := 0, Valid := true }, none) :=
  ⟨rfl, rfl, rfl⟩

/-- C6 (the code at the failing input): `UnmarshalJSON` of `70000` on a
receiver holding the valid value 5 returns the overflow error and leaves the
receiver as it was, still with `Valid == true`. -/
theorem C6_overflow_keeps_valid_receiver :
    Uint16.UnmarshalJSON { Uint16 := 5, Valid := true } [55, 48, 48, 48, 48] =
      ({ Uint16 := 5, Valid := true }, some (GoError.overflowsUint16 70000)) := by
  rfl

/-- C8: for every prior state `u` of a `Uint16` receiver, `UnmarshalText` of
the empty text and of a nil text, and `UnmarshalJSON` of the empty JSON string
`""`, return no error and leave `Valid == false` (the stored value is not
touched). -/
theorem C8_uint16_empty_string (u : Null.Uint16) :
    u.UnmarshalText (some []) = ({ Uint16 := u.Uint16, Valid := false }, none) ∧
    u.UnmarshalText none = ({ Uint16 := u.Uint16, Valid := false }, none) ∧
    u.UnmarshalJSON [34, 34] = ({ Uint16 := u.Uint16, Valid := false }, none) :=
  ⟨rfl, rfl, rfl⟩

/-- C9 (counterexample): on a fresh `Duration`, `UnmarshalJSON` of the empty
JSON string `""` does not return a nil error: it returns the decoder's type
error for a string. -/
theorem C9_duration_empty_string_counterexample :
    ¬ ((Duration.UnmarshalJSON { Duration := 0, Valid := false } [34, 34]).2 = none ∧
        (Duration.UnmarshalJSON { Duration := 0, Valid := false } [34, 34]).1.Valid = false) ∧
    (Duration.UnmarshalJSON { Duration := 0, Valid := false } [34, 34]).2 =
      some (GoError.unmarshalType JSONValueDesc.string) := by
  refine ⟨?_, rfl⟩
  intro h
  exact absurd h.1 (by decide)

/-- C9 (amended): for every prior state `d` of a `Duration` receiver,
`UnmarshalJSON` of the empty JSON string `""` returns the decoder's type error
for a string, not a nil error; a receiver that was null before the call is
null afterwards. -/
theorem C9_duration_empty_string (d : Null.Duration) :
    (d.UnmarshalJSON [34, 34]).2 = some (GoError.unmarshalType JSONValueDesc.string) ∧
    (d.Valid = false → (d.UnmarshalJSON [34, 34]).1.Valid = false) := by
  refine ⟨rfl, ?_⟩
  intro h
  have hr : (d.UnmarshalJSON [34, 34]).1 = d := rfl
  rw [hr, h]

/-- C9 (amended) on a fresh receiver. -/
theorem C9_duration_empty_string_witness :
    (Duration.UnmarshalJSON { Duration := 0, Valid := false } [34, 34]).2 =
      some (GoError.unmarshalType JSONValueDesc.string) ∧
    (Duration.UnmarshalJSON { Duration := 0, Valid := false } [34, 34]).1.Valid = false :=
  ⟨(C9_duration_empty_string { Duration := 0, Valid := false }).1,
    (C9_duration_empty_string { Duration := 0, Valid := false }).2 rfl⟩

/-- C10 (the code at the failing input): on a `Duration` receiver holding the
valid value 5, `UnmarshalJSON` of the JSON boolean `true` and of the malformed
input `x` return an error and leave the receiver as it was, still with
`Valid == true`; only a receiver that was null before, as the fresh one of
the tests, is null afterwards. -/
theorem C10_duration_error_keeps_valid_receiver :
    Duration.UnmarshalJSON { Duration := 5, Valid := true } [116, 114, 117, 101] =
      ({ Duration := 5, Valid := true }, some (GoError.unmarshalType JSONValueDesc.bool)) ∧
    Duration.UnmarshalJSON { Duration := 5, Valid := true } [120] =
      ({ Duration := 5, Valid := true }, some GoError.syntaxErr) ∧
    Duration.UnmarshalJSON { Duration := 0, Valid := false } [116, 114, 117, 101] =
      ({ Duration := 0, Valid := false }, some (GoError.unmarshalType JSONValueDesc.bool)) :=
  ⟨rfl, rfl, rfl⟩

/-- C5 (counterexample): the JSON number literals `18446744073709551616`
(`2 ^ 64`) and `7e4` denote integers above 65535, and `UnmarshalJSON` returns
for them the decoder's type error, which is not the overflow error. -/
theorem C5_overflow_error_counterexample :
    (Uint16.UnmarshalJSON { Uint16 := 0, Valid := false }
        [49, 56, 52, 52, 54, 55, 52, 52, 48, 55, 51, 55, 48, 57, 53, 53, 49, 54, 49, 54]).2 =
      some (GoError.unmarshalType (JSONValueDesc.number
        [49, 56, 52, 52, 54, 55, 52, 52, 48, 55, 51, 55, 48, 57, 53, 53, 49, 54, 49, 54])) ∧
    (Uint16.UnmarshalJSON { Uint16 := 0, Valid := false } [55, 101, 52]).2 =
      some (GoError.unmarshalType (JSONValueDesc.number [55, 101, 52])) ∧
    (∀ i : Nat,
      (Uint16.UnmarshalJSON { Uint16 := 0, Valid := false }
        [49, 56, 52, 52, 54, 55, 52, 52, 48, 55, 51, 55, 48, 57, 53, 53, 49, 54, 49, 54]).2 ≠
      some (GoError.overflowsUint16 i)) := by
  refine ⟨rfl, rfl, ?_⟩
  intro i h
  have h2 : (Uint16.UnmarshalJSON { Uint16 := 0, Valid := false }
        [49, 56, 52, 52, 54, 55, 52, 52, 48, 55, 51, 55, 48, 57, 53, 53, 49, 54, 49, 54]).2 =
      some (GoError.unmarshalType (JSONValueDesc.number
        [49, 56, 52, 52, 54, 55, 52, 52, 48, 55, 51, 55, 48, 57, 53, 53, 49, 54, 49, 54])) := rfl
  rw [h2] at h
  cases h

/-- C5 (amended): for every integer `n` with `65535 < n < 2 ^ 64`, written as
a JSON number in plain decimal digits (the text `FormatUint` gives, as
`70000`), and every prior state `u` of the receiver, `UnmarshalJSON` returns
the overflow error for `n`, and not success or another error. -/
theorem C5_overflow_error_in_uint64_range (u : Null.Uint16) (n : Nat) (hlo : 65535 < n)
    (hhi : n < 2 ^ 64) :
    (u.UnmarshalJSON (FormatUint n)).2 = some (GoError.overflowsUint16 n) := by
  obtain ⟨c, t, heq, hc, ht, hval⟩ := FormatUint_spec n (by omega) hhi
  rw [heq, uint16_UnmarshalJSON_numeral u c t hc ht (by omega), hval]
  have hgt : n > MaxUint16 := by simp only [MaxUint16]; omega
  simp only [Uint16.finishUnmarshalJSON, hgt, if_true]

/-- C5 (amended) at `n = 70000`, the literal `70000`, on a fresh receiver. -/
theorem C5_overflow_error_in_uint64_range_witness :
    (65535 < 70000 ∧ 70000 < 2 ^ 64) ∧ FormatUint 70000 = [55, 48, 48, 48, 48] ∧
    (Uint16.UnmarshalJSON { Uint16 := 0, Valid := false } (FormatUint 70000)).2 =
      some (GoError.overflowsUint16 70000) :=
  ⟨by decide, rfl, C5_overflow_error_in_uint64_range { Uint16 := 0, Valid := false } 70000
    (by decide) (by decide)⟩

/-! ## The scanner and the decoder on a quoted run of digits -/

/-- C13: for each of `Duration`, `Float32` and `Uint16`, every collaborator
and every prior state of the receiver, `Scan(nil)` returns no error and leaves
the zero value with `Valid == false`. -/
theorem C13_scan_nil {Src E : Type} (ops : FloatOps) :
    (∀ (conv : Int → Src → Int × Option E) (d : Null.Duration),
      d.Scan conv none = ({ Duration := 0, Valid := false }, none)) ∧
    (∀ (conv : ops.F32 → Src → ops.F32 × Option E) (f : Null.Float32 ops),
      f.Scan conv none = ({ Float32 := ops.zero32, Valid := false }, none)) ∧
    (∀ (conv : Nat → Src → Nat × Option E) (u : Null.Uint16),
      u.Scan conv none = ({ Uint16 := 0, Valid := false }, none)) :=
  ⟨fun _ _ => rfl, fun _ _ => rfl, fun _ _ => rfl⟩

/-- C14: for each wrapper type, every prior state, every non-nil source `v`
and every collaborator `conv` (failing or not), after `Scan(v)` the wrapper
has `Valid == true`, its value is what the collaborator left in the value
field, and the error returned is exactly the collaborator's. -/
theorem C14_scan_non_nil {Src E : Type} (ops : FloatOps) (v : Src) :
    (∀ (conv : Int → Src → Int × Option E) (d : Null.Duration),
      (d.Scan conv (some v)).1.Valid = true ∧
      (d.Scan conv (some v)).1.Duration = (conv d.Duration v).1 ∧
      (d.Scan conv (some v)).2 = (conv d.Duration v).2) ∧
    (∀ (conv : ops.F32 → Src → ops.F32 × Option E) (f : Null.Float32 ops),
      (f.Scan conv (some v)).1.Valid = true ∧
      (f.Scan conv (some v)).1.Float32 = (conv f.Float32 v).1 ∧
      (f.Scan conv (some v)).2 = (conv f.Float32 v).2) ∧
    (∀ (conv : Nat → Src → Nat × Option E) (u : Null.Uint16),
      (u.Scan conv (some v)).1.Valid = true ∧
      (u.Scan conv (some v)).1.Uint16 = (conv u.Uint16 v).1 ∧
      (u.Scan conv (some v)).2 = (conv u.Uint16 v).2) :=
  ⟨fun _ _ => ⟨rfl, rfl, rfl⟩, fun _ _ => ⟨rfl, rfl, rfl⟩, fun _ _ => ⟨rfl, rfl, rfl⟩⟩

/-- The conversion to `int64` of a value a `uint16` can hold is the value. -/
theorem toInt64_uint16 (v : Nat) (h : v < 2 ^ 16) : toInt64 (v : Int) = (v : Int) := by
  have h16 : (2 : Nat) ^ 16 = 65536 := by norm_num
  unfold toInt64
  omega

/-- C15: for every `Uint16` (holding a uint16), `Value()` returns no error;
it returns nil exactly when `Valid == false`, and otherwise the `int64` equal
to the stored value, which lies in `0..65535`. -/
theorem C15_uint16_value (u : Null.Uint16) (h : u.Uint16 < 2 ^ 16) :
    u.Value.2 = none ∧
    (u.Value.1 = DriverValue.nil ↔ u.Valid = false) ∧
    (u.Valid = true →
      u.Value.1 = DriverValue.int64 (u.Uint16 : Int) ∧
      (0 : Int) ≤ (u.Uint16 : Int) ∧ (u.Uint16 : Int) ≤ 65535) := by
  have h16 : (2 : Nat) ^ 16 = 65536 := by norm_num
  obtain ⟨x, valid⟩ := u
  simp only at h
  cases valid with
  | false => simp [Uint16.Value]
  | true =>
    have hx := toInt64_uint16 x h
    refine ⟨rfl, ?_, ?_⟩
    · simp [Uint16.Value]
    · intro _
      show (Uint16.Value { Uint16 := x, Valid := true }).1 = DriverValue.int64 (x : Int) ∧ (0 : Int) ≤ (x : Int) ∧ (x : Int) ≤ 65535
      refine ⟨?_, by omega, by omega⟩
      simp [Uint16.Value, hx]

/-- C15 at the largest value, `{65535, true}`. -/
theorem C15_uint16_value_witness :
    (65535 < 2 ^ 16) ∧
    (Uint16.Value { Uint16 := 65535, Valid := true }).1 = DriverValue.int64 65535 :=
  ⟨by decide,
    ((C15_uint16_value { Uint16 := 65535, Valid := true } (by decide)).2.2 rfl).1⟩

/-- C16: for every value `v`, zero included, and each wrapper type, `From(v)`
is `{v, true}`, `SetValid(v)` on any receiver leaves `{v, true}`, and
`IsZero()` is the negation of `Valid`: false on `New(0, true)`, true on
`New(v, false)`. -/
theorem C16_validity_independent_of_zero (ops : FloatOps) :
    (∀ v : Nat, Uint16From v = { Uint16 := v, Valid := true }) ∧
    (∀ v : Int, DurationFrom v = { Duration := v, Valid := true }) ∧
    (∀ v : ops.F32, Float32From ops v = { Float32 := v, Valid := true }) ∧
    (∀ (u : Null.Uint16) (v : Nat), u.SetValid v = { Uint16 := v, Valid := true }) ∧
    (∀ (d : Null.Duration) (v : Int), d.SetValid v = { Duration := v, Valid := true }) ∧
    (∀ (f : Null.Float32 ops) (v : ops.F32), f.SetValid v = { Float32 := v, Valid := true }) ∧
    (∀ u : Null.Uint16, u.IsZero = !u.Valid) ∧
    (∀ d : Null.Duration, d.IsZero = !d.Valid) ∧
    (∀ f : Null.Float32 ops, f.IsZero = !f.Valid) ∧
    (NewUint16 0 true).IsZero = false ∧ (NewDuration 0 true).IsZero = false ∧
    (NewFloat32 ops ops.zero32 true).IsZero = false ∧
    (∀ v : Nat, (NewUint16 v false).IsZero = true) ∧
    (∀ v : Int, (NewDuration v false).IsZero = true) ∧
    (∀ v : ops.F32, (NewFloat32 ops v false).IsZero = true) :=
  ⟨fun _ => rfl, fun _ => rfl, fun _ => rfl, fun _ _ => rfl, fun _ _ => rfl, fun _ _ => rfl,
    fun _ => rfl, fun _ => rfl, fun _ => rfl, rfl, rfl, rfl, fun _ => rfl, fun _ => rfl,
    fun _ => rfl⟩

/-- The constructor `FromPtr` and the method `Ptr` of `Uint16`. -/
theorem uint16_ptr_inverse :
    Uint16FromPtr none = { Uint16 := 0, Valid := false } ∧
    (∀ v : Nat, Uint16FromPtr (some v) = { Uint16 := v, Valid := true }) ∧
    (∀ w : Null.Uint16, (w.Ptr = none ↔ w.Valid = false)) ∧
    (∀ w : Null.Uint16, w.Valid = true → w.Ptr = some w.Uint16) ∧
    (∀ p : Option Nat, (Uint16FromPtr p).Ptr = p) ∧
    (∀ w : Null.Uint16, w.Valid = true → Uint16FromPtr w.Ptr = w) ∧
    (∀ w : Null.Uint16, w.Valid = false →
      Uint16FromPtr w.Ptr = { Uint16 := 0, Valid := false }) := by
  refine ⟨rfl, fun _ => rfl, ?_, ?_, ?_, ?_, ?_⟩
  · intro w; cases hv : w.Valid <;> simp [Uint16.Ptr, hv]
  · intro w hv; simp [Uint16.Ptr, hv]
  · intro p; cases p <;> rfl
  · intro w hv
    obtain ⟨x, valid⟩ := w
    simp only at hv
    subst hv
    rfl
  · intro w hv; simp [Uint16.Ptr, hv, Uint16FromPtr, NewUint16]

/-- The constructor `FromPtr` and the method `Ptr` of `Duration`. -/
theorem duration_ptr_inverse :
    DurationFromPtr none = { Duration := 0, Valid := false } ∧
    (∀ v : Int, DurationFromPtr (some v) = { Duration := v, Valid := true }) ∧
    (∀ w : Null.Duration, (w.Ptr = none ↔ w.Valid = false)) ∧
    (∀ w : Null.Duration, w.Valid = true → w.Ptr = some w.Duration) ∧
    (∀ p : Option Int, (DurationFromPtr p).Ptr = p) ∧
    (∀ w : Null.Duration, w.Valid = true → DurationFromPtr w.Ptr = w) ∧
    (∀ w : Null.Duration, w.Valid = false →
      DurationFromPtr w.Ptr = { Duration := 0, Valid := false }) := by
  refine ⟨rfl, fun _ => rfl, ?_, ?_, ?_, ?_, ?_⟩
  · intro w; cases hv : w.Valid <;> simp [Duration.Ptr, hv]
  · intro w hv; simp [Duration.Ptr, hv]
  · intro p; cases p <;> rfl
  · intro w hv
    obtain ⟨x, valid⟩ := w
    simp only at hv
    subst hv
    rfl
  · intro w hv; simp [Duration.Ptr, hv, DurationFromPtr, NewDuration]

/-- The constructor `FromPtr` and the method `Ptr` of `Float32`. -/
theorem float32_ptr_inverse (ops : FloatOps) :
    Float32FromPtr ops none = { Float32 := ops.zero32, Valid := false } ∧
    (∀ v : ops.F32, Float32FromPtr ops (some v) = { Float32 := v, Valid := true }) ∧
    (∀ w : Null.Float32 ops, (w.Ptr = none ↔ w.Valid = false)) ∧
    (∀ w : Null.Float32 ops, w.Valid = true → w.Ptr = some w.Float32) ∧
    (∀ p : Option ops.F32, (Float32FromPtr ops p).Ptr = p) ∧
    (∀ w : Null.Float32 ops, w.Valid = true → Float32FromPtr ops w.Ptr = w) ∧
    (∀ w : Null.Float32 ops, w.Valid = false →
      Float32FromPtr ops w.Ptr = { Float32 := ops.zero32, Valid := false }) := by
  refine ⟨rfl, fun _ => rfl, ?_, ?_, ?_, ?_, ?_⟩
  · intro w; cases hv : w.Valid <;> simp [Float32.Ptr, hv]
  · intro w hv; simp [Float32.Ptr, hv]
  · intro p; cases p <;> rfl
  · intro w hv
    obtain ⟨x, valid⟩ := w
    simp only at hv
    subst hv
    rfl
  · intro w hv; simp [Float32.Ptr, hv, Float32FromPtr, NewFloat32]

/-- C17: for each wrapper type, with a pointer as the optional value it refers
to: `FromPtr(nil)` is `{zero, false}` and `FromPtr(&v)` is `{v, true}`;
`Ptr()` is nil exactly when `Valid == false` and otherwise refers to the
stored value; `Ptr(FromPtr(p))` is `p` for every `p`; and `FromPtr(w.Ptr())`
is `w` for every valid `w` and `{zero, false}` for every invalid `w`. -/
theorem C17_fromptr_ptr_inverse (ops : FloatOps) :
    (Uint16FromPtr none = { Uint16 := 0, Valid := false } ∧
      (∀ v : Nat, Uint16FromPtr (some v) = { Uint16 := v, Valid := true }) ∧
      (∀ w : Null.Uint16, (w.Ptr = none ↔ w.Valid = false)) ∧
      (∀ w : Null.Uint16, w.Valid = true → w.Ptr = some w.Uint16) ∧
      (∀ p : Option Nat, (Uint16FromPtr p).Ptr = p) ∧
      (∀ w : Null.Uint16, w.Valid = true → Uint16FromPtr w.Ptr = w) ∧
      (∀ w : Null.Uint16, w.Valid = false →
        Uint16FromPtr w.Ptr = { Uint16 := 0, Valid := false })) ∧
    (DurationFromPtr none = { Duration := 0, Valid := false } ∧
      (∀ v : Int, DurationFromPtr (some v) = { Duration := v, Valid := true }) ∧
      (∀ w : Null.Duration, (w.Ptr = none ↔ w.Valid = false)) ∧
      (∀ w : Null.Duration, w.Valid = true → w.Ptr = some w.Duration) ∧
      (∀ p : Option Int, (DurationFromPtr p).Ptr = p) ∧
      (∀ w : Null.Duration, w.Valid = true → DurationFromPtr w.Ptr = w) ∧
      (∀ w : Null.Duration, w.Valid = false →
        DurationFromPtr w.Ptr = { Duration := 0, Valid := false })) ∧
    (Float32FromPtr ops none = { Float32 := ops.zero32, Valid := false } ∧
      (∀ v : ops.F32, Float32FromPtr ops (some v) = { Float32 := v, Valid := true }) ∧
      (∀ w : Null.Float32 ops, (w.Ptr = none ↔ w.Valid = false)) ∧
      (∀ w : Null.Float32 ops, w.Valid = true → w.Ptr = some w.Float32) ∧
      (∀ p : Option ops.F32, (Float32FromPtr ops p).Ptr = p) ∧
      (∀ w : Null.Float32 ops, w.Valid = true → Float32FromPtr ops w.Ptr = w) ∧
      (∀ w : Null.Float32 ops, w.Valid = false →
        Float32FromPtr ops w.Ptr = { Float32 := ops.zero32, Valid := false })) :=
  ⟨uint16_ptr_inverse, duration_ptr_inverse, float32_ptr_inverse ops⟩

/-- C17 at the valid `Duration` of the tests, `{9203685806, true}`, and the
float operations of IEEE 754. -/
theorem C17_fromptr_ptr_inverse_witness :
    ((NewDuration 9203685806 true).Valid = true) ∧
    DurationFromPtr (NewDuration 9203685806 true).Ptr = NewDuration 9203685806 true :=
  ⟨rfl, (C17_fromptr_ptr_inverse (ieeeOps (fun _ => (FloatVal.nan, none)) (fun _ => []))).2.1.2.2.2.2.2.1
    (NewDuration 9203685806 true) rfl⟩

/-- C19 (the code at the failing input): with IEEE 754 floats, whatever the
receiver held, `Float32.UnmarshalJSON` of the JSON number `-1e39`, whose
magnitude is beyond the float32 range, returns no error and leaves the
receiver valid, holding negative infinity; the JSON number `1e39` is rejected
with the overflow error (and the receiver is left as it was). -/
theorem C19_negative_overflow_accepted (parseFloat32 : Bytes → FloatVal × Option GoError)
    (formatFloat32 : FloatVal → Bytes)
    (f : Null.Float32 (ieeeOps parseFloat32 formatFloat32)) :
    f.UnmarshalJSON [45, 49, 101, 51, 57] =
      ({ Float32 := FloatVal.inf true, Valid := true }, none) ∧
    f.UnmarshalJSON [49, 101, 51, 57] = (f, some GoError.overflowsFloat32) :=
  ⟨rfl, rfl⟩

/-! ## What `strconv.ParseUint` accepts -/

/-- A byte that is not a digit makes the loop of `ParseUint` fail. -/
theorem parseUintLoop_not_digits (s0 : Bytes) (bitSize : Nat) :
    ∀ (ds : Bytes) (a : Nat), ¬ AllDigits ds → (parseUintLoop s0 bitSize ds a).2 ≠ none := by
  intro ds
  induction ds with
  | nil =>
    intro a h
    exact absurd (fun c hc => absurd hc (List.not_mem_nil c)) h
  | cons c cs ih =>
    intro a h
    by_cases hd : isDigit c = true
    · have hcs : ¬ AllDigits cs := by
        intro hall
        apply h
        intro x hx
        rcases List.mem_cons.1 hx with hx | hx
        · exact hx ▸ hd
        · exact hall x hx
      simp only [parseUintLoop, hd, if_true]
      split
      · simp
      · split
        · simp
        · exact ih _ hcs
    · simp [parseUintLoop, hd]

/-- When the loop of `ParseUint` fails, the value it returns is at most
`maxVal`. -/
theorem parseUintLoop_error_le (s0 : Bytes) (bitSize : Nat) :
    ∀ (ds : Bytes) (a : Nat), (parseUintLoop s0 bitSize ds a).2 ≠ none →
      (parseUintLoop s0 bitSize ds a).1 ≤ 2 ^ bitSize - 1 := by
  intro ds
  induction ds with
  | nil => intro a h; simp [parseUintLoop] at h
  | cons c cs ih =>
    intro a h
    by_cases hd : isDigit c = true
    · simp only [parseUintLoop, hd, if_true] at h ⊢
      split
      · exact Nat.le_refl _
      · split
        · exact Nat.le_refl _
        · rename_i h1 h2
          simp only [h1, h2, if_false] at h
          exact ih _ h
    · simp [parseUintLoop, hd]

/-- The function `ParseUint(s, 10, bitSize)` returns no error exactly on a
non-empty run of digits whose value fits in `bitSize` bits. -/
theorem ParseUint_ok_iff (s : Bytes) (bitSize : Nat) (hb : bitSize ≤ 64) :
    (ParseUint s bitSize).2 = none ↔ s ≠ [] ∧ AllDigits s ∧ decVal s 0 ≤ 2 ^ bitSize - 1 := by
  constructor
  · intro h
    by_cases hne : s = []
    · subst hne
      simp [ParseUint] at h
    · simp only [ParseUint, hne, if_false] at h
      have hall : AllDigits s := by
        by_contra hnot
        exact parseUintLoop_not_digits s bitSize s 0 hnot h
      refine ⟨hne, hall, ?_⟩
      by_contra hgt
      have := parseUintLoop_range s bitSize hb s 0 hall (Nat.zero_le _) (by omega)
      rw [this] at h
      simp at h
  · rintro ⟨hne, hall, hle⟩
    simp only [ParseUint, hne, if_false]
    rw [parseUintLoop_ok s bitSize hb s 0 hall hle]

/-- When `ParseUint(s, 10, bitSize)` returns no error, it returns the value
of the digits. -/
theorem ParseUint_ok_value (s : Bytes) (bitSize : Nat) (hb : bitSize ≤ 64)
    (h : (ParseUint s bitSize).2 = none) : (ParseUint s bitSize).1 = decVal s 0 := by
  obtain ⟨hne, hall, hle⟩ := (ParseUint_ok_iff s bitSize hb).1 h
  simp only [ParseUint, hne, if_false]
  rw [parseUintLoop_ok s bitSize hb s 0 hall hle]

/-- When `ParseUint(s, 10, bitSize)` fails, the value it returns is at most
`maxVal`. -/
theorem ParseUint_error_le (s : Bytes) (bitSize : Nat) (h : (ParseUint s bitSize).2 ≠ none) :
    (ParseUint s bitSize).1 ≤ 2 ^ bitSize - 1 := by
  by_cases hne : s = []
  · subst hne
    simp [ParseUint]
  · simp only [ParseUint, hne, if_false] at h ⊢
    exact parseUintLoop_error_le s bitSize s 0 h

/-- C20: for every prior state `u` and every text, `Uint16.UnmarshalText`
returns an error if and only if the text is non-empty and is not a run of
decimal digits with a value in `0..65535`; when it fails it leaves
`Valid == false` and the stored value as it was; when it succeeds on
non-empty text it leaves the parsed value with `Valid == true`. -/
theorem C20_uint16_unmarshal_text (u : Null.Uint16) (text : Option Bytes) :
    ((u.UnmarshalText text).2 ≠ none ↔
      ∃ t, text = some t ∧ t ≠ [] ∧ ¬ (AllDigits t ∧ decVal t 0 ≤ 65535)) ∧
    ((u.UnmarshalText text).2 ≠ none →
      (u.UnmarshalText text).1 = { Uint16 := u.Uint16, Valid := false }) ∧
    (∀ t, text = some t → t ≠ [] → (u.UnmarshalText text).2 = none →
      (u.UnmarshalText text).1 = { Uint16 := decVal t 0, Valid := true }) := by
  have h16 : (2 : Nat) ^ 16 - 1 = 65535 := by norm_num
  cases text with
  | none =>
    refine ⟨⟨fun h => absurd rfl h, ?_⟩, fun h => absurd rfl h, ?_⟩
    · rintro ⟨t, ht, _⟩
      cases ht
    · intro t ht
      cases ht
  | some t =>
    by_cases hne : t = []
    · subst hne
      refine ⟨⟨fun h => absurd rfl h, ?_⟩, fun h => absurd rfl h, ?_⟩
      · rintro ⟨t, ht, hne, _⟩
        cases ht
        exact absurd rfl hne
      · intro t ht hne
        cases ht
        exact absurd rfl hne
    · have hlen : ¬ t.length = 0 := fun h => hne (List.length_eq_zero.1 h)
      have hiff := ParseUint_ok_iff t 16 (by decide)
      rw [h16] at hiff
      by_cases hok : (ParseUint t 16).2 = none
      · have hval := ParseUint_ok_value t 16 (by decide) hok
        obtain ⟨_, hall, hle⟩ := hiff.1 hok
        have hres : u.UnmarshalText (some t) =
            ({ Uint16 := decVal t 0, Valid := true }, none) := by
          have hmod : decVal t 0 % 2 ^ 16 = decVal t 0 := Nat.mod_eq_of_lt (by omega)
          simp only [Uint16.UnmarshalText, hlen, if_false, hok, Option.isNone_none, if_true,
            hval, hmod]
        rw [hres]
        refine ⟨⟨fun h => absurd rfl h, ?_⟩, fun h => absurd rfl h, ?_⟩
        · rintro ⟨t2, ht, _, hnot⟩
          cases ht
          exact absurd ⟨hall, hle⟩ hnot
        · intro t2 ht _ _
          cases ht
          rfl
      · have hres : u.UnmarshalText (some t) =
            ({ Uint16 := u.Uint16, Valid := false }, (ParseUint t 16).2) := by
          cases hp : (ParseUint t 16).2 with
          | none => exact absurd hp hok
          | some e => simp [Uint16.UnmarshalText, hlen, hp]
        rw [hres]
        refine ⟨⟨fun _ => ⟨t, rfl, hne, ?_⟩, fun _ => hok⟩, fun _ => rfl, ?_⟩
        · intro hboth
          exact hok (hiff.2 ⟨hne, hboth.1, hboth.2⟩)
        · intro t2 _ _ h
          exact absurd h hok

/-- C20 at the text `65535` and at the text `65536`, on a receiver holding the
valid value 7: the first succeeds and leaves `{65535, true}`, the second fails
and leaves `{7, false}`. -/
theorem C20_uint16_unmarshal_text_witness :
    (Uint16.UnmarshalText { Uint16 := 7, Valid := true } (some [54, 53, 53, 51, 53])).1 =
      { Uint16 := 65535, Valid := true } ∧
    (Uint16.UnmarshalText { Uint16 := 7, Valid := true } (some [54, 53, 53, 51, 54])).1 =
      { Uint16 := 7, Valid := false } :=
  ⟨(C20_uint16_unmarshal_text { Uint16 := 7, Valid := true } (some [54, 53, 53, 51, 53])).2.2
      [54, 53, 53, 51, 53] rfl (by decide) rfl,
    (C20_uint16_unmarshal_text { Uint16 := 7, Valid := true } (some [54, 53, 53, 51, 54])).2.1
      (by decide)⟩

/-! ## The plain-text round trip -/

/-- The text `FormatUint` writes for a `uint64`, zero included: a numeral
whose value is `n`. -/
theorem FormatUint_numeral (n : Nat) (hn : n < 2 ^ 64) :
    ∃ c t, FormatUint n = c :: t ∧ (48 ≤ c ∧ c ≤ 57) ∧ AllDigits t ∧ decVal (c :: t) 0 = n := by
  have h20 : n < 10 ^ 20 := by
    have : (2 : Nat) ^ 64 < 10 ^ 20 := by norm_num
    omega
  obtain ⟨c, t, heq, hall, hval, _⟩ := formatBits_spec 20 n [] h20 (by decide)
  obtain ⟨hc, ht⟩ := allDigits_cons hall
  exact ⟨c, t, by simpa [FormatUint] using heq, hc, ht, hval⟩

/-- The function `ParseInt` reads back what `FormatInt` wrote. -/
theorem ParseInt_FormatInt (n : Int) (hlo : -2 ^ 63 ≤ n) (hhi : n < 2 ^ 63) :
    ∃ c t, FormatInt n = c :: t ∧ ParseInt (c :: t) 64 = (n, none) := by
  have h63 : (2 : Nat) ^ 63 = 9223372036854775808 := by norm_num
  have h64 : (2 : Nat) ^ 64 = 18446744073709551616 := by norm_num
  by_cases hneg : n < 0
  · obtain ⟨c, t, heq, hc, ht, hval⟩ := FormatUint_numeral (-n).toNat (by omega)
    refine ⟨45, c :: t, ?_, ?_⟩
    · rw [FormatInt_neg n hneg hlo, heq]
    · rw [ParseInt_negNumeral (c :: t) (allDigits_of_cons hc ht) (by simp) (by omega), hval]
      have : -(((-n).toNat : Nat) : Int) = n := by omega
      rw [this]
  · obtain ⟨c, t, heq, hc, ht, hval⟩ := FormatUint_numeral n.toNat (by omega)
    refine ⟨c, t, ?_, ?_⟩
    · rw [FormatInt_nonneg n (by omega) hhi, heq]
    · rw [ParseInt_numeral c t hc ht (by omega), hval]
      have : ((n.toNat : Nat) : Int) = n := by omega
      rw [this]

/-- C12: for `Uint16` and `Duration`, every valid wrapper (the value zero and,
for `Duration`, negative counts included) and every prior state of the
receiver, `MarshalText` returns no error and `UnmarshalText` of its text
returns no error and leaves the receiver equal to the wrapper; for every
invalid wrapper `MarshalText` returns the empty text and no error, and
`UnmarshalText` of the empty text returns no error and leaves
`Valid == false`. -/
theorem C12_text_roundtrip :
    (∀ (u : Null.Uint16) (v : Nat), v < 2 ^ 16 →
      (NewUint16 v true).MarshalText.2 = none ∧
      u.UnmarshalText (some (NewUint16 v true).MarshalText.1) =
        ({ Uint16 := v, Valid := true }, none)) ∧
    (∀ (d : Null.Duration) (n : Int), -2 ^ 63 ≤ n → n < 2 ^ 63 →
      (NewDuration n true).MarshalText.2 = none ∧
      d.UnmarshalText (some (NewDuration n true).MarshalText.1) =
        ({ Duration := n, Valid := true }, none)) ∧
    (∀ (u : Null.Uint16) (v : Nat),
      (NewUint16 v false).MarshalText = ([], none) ∧
      (u.UnmarshalText (some (NewUint16 v false).MarshalText.1)).2 = none ∧
      (u.UnmarshalText (some (NewUint16 v false).MarshalText.1)).1.Valid = false) ∧
    (∀ (d : Null.Duration) (n : Int),
      (NewDuration n false).MarshalText = ([], none) ∧
      (d.UnmarshalText (some (NewDuration n false).MarshalText.1)).2 = none ∧
      (d.UnmarshalText (some (NewDuration n false).MarshalText.1)).1.Valid = false) := by
  refine ⟨?_, ?_, fun _ _ => ⟨rfl, rfl, rfl⟩, fun _ _ => ⟨rfl, rfl, rfl⟩⟩
  · intro u v hv
    have h16 : (2 : Nat) ^ 16 = 65536 := by norm_num
    have h64 : (2 : Nat) ^ 64 = 18446744073709551616 := by norm_num
    obtain ⟨c, t, heq, hc, ht, hval⟩ := FormatUint_numeral v (by omega)
    have hm : (NewUint16 v true).MarshalText = (c :: t, none) := by
      simp [Uint16.MarshalText, NewUint16, heq]
    have hp : ParseUint (c :: t) 16 = (v, none) := by
      simp only [ParseUint, if_false, reduceCtorEq]
      rw [parseUintLoop_ok (c :: t) 16 (by decide) (c :: t) 0 (allDigits_of_cons hc ht)
        (by omega), hval]
    have hmod : v % 2 ^ 16 = v := Nat.mod_eq_of_lt hv
    rw [hm]
    refine ⟨rfl, ?_⟩
    simp only [Uint16.UnmarshalText, List.length_cons, Nat.succ_ne_zero, if_false, hp,
      Option.isNone_none, if_true, hmod]
  · intro d n hlo hhi
    obtain ⟨c, t, heq, hp⟩ := ParseInt_FormatInt n hlo hhi
    have hm : (NewDuration n true).MarshalText = (c :: t, none) := by
      simp [Duration.MarshalText, NewDuration, heq]
    rw [hm]
    refine ⟨rfl, ?_⟩
    simp only [Duration.UnmarshalText, List.length_cons, Nat.succ_ne_zero, if_false, hp,
      Option.isNone_none]

/-- C12 at the `Uint16` zero and the `Duration` `-2 ^ 63`, on receivers that
held other valid values. -/
theorem C12_text_roundtrip_witness :
    Uint16.UnmarshalText { Uint16 := 7, Valid := true }
        (some (NewUint16 0 true).MarshalText.1) = ({ Uint16 := 0, Valid := true }, none) ∧
    Duration.UnmarshalText { Duration := 7, Valid := true }
        (some (NewDuration (-9223372036854775808) true).MarshalText.1) =
      ({ Duration := -9223372036854775808, Valid := true }, none) :=
  ⟨(C12_text_roundtrip.1 { Uint16 := 7, Valid := true } 0 (by decide)).2,
    (C12_text_roundtrip.2.1 { Duration := 7, Valid := true } (-9223372036854775808)
      (by decide) (by decide)).2⟩

/-! ## The error exits of `Uint16.UnmarshalJSON` -/

/-- When the generic decode yields a float64, the input is valid JSON whose
top-level literal is the number literal, and it begins like a number. -/
theorem decodeInterface_float64_inv (data lit : Bytes)
    (h : decodeInterface data = Except.ok (IfaceValue.float64 lit)) :
    checkValid data = none ∧ topValue data = TopValue.literal lit ∧
      ∃ c item, lit = c :: item ∧ c ≠ 110 ∧ c ≠ 116 ∧ c ≠ 102 ∧ c ≠ 34 := by
  unfold decodeInterface at h
  split at h
  · cases h
  · rename_i hcv
    refine ⟨hcv, ?_⟩
    split at h
    · split at h <;> cases h
    · split at h <;> cases h
    · rename_i item htop
      unfold literalInterface at h
      split at h
      · cases h
      · rename_i c rest
        by_cases h1 : c = 110
        · simp [h1] at h
        · by_cases h2 : c = 116 ∨ c = 102
          · simp [h1, h2] at h
          · by_cases h3 : c = 34
            · simp only [h1, h2, h3, if_false, if_true] at h
              cases hq : unquoteBytes (34 :: rest) with
              | none => rw [hq] at h; cases h
              | some str => rw [hq] at h; cases h
            · simp only [h1, h2, h3, if_false] at h
              split at h
              · cases h
              · split at h
                · cases h
                · cases h
                  exact ⟨htop, c, rest, rfl, h1, fun h => h2 (Or.inl h), fun h => h2 (Or.inr h),
                    h3⟩

/-- The end of `Uint16.UnmarshalJSON` on an error and a value that fits. -/
theorem finishUnmarshalJSON_error (u : Null.Uint16) (i : Nat) (e : GoError) (hi : i ≤ 65535) :
    u.finishUnmarshalJSON i (some e) = ({ Uint16 := i, Valid := false }, some e) := by
  have hle : ¬ i > MaxUint16 := by simp only [MaxUint16]; omega
  have h16 : (2 : Nat) ^ 16 = 65536 := by norm_num
  have hmod : i % 2 ^ 16 = i := Nat.mod_eq_of_lt (by omega)
  simp only [Uint16.finishUnmarshalJSON, hle, if_false, hmod]
  simp

/-- The generic decode of exactly the null literal is nil. -/
theorem decodeInterface_NullBytes : decodeInterface NullBytes = Except.ok IfaceValue.nil := by
  rfl

/-- C11 (the code at the failing input): the JSON number `-1e999` is
well-formed and negative, and on a receiver holding the valid value 5
`UnmarshalJSON` returns an error (from the generic decode, which cannot hold
the number in a float64) at once and leaves the receiver as it was, still with
`Valid == true`; on the negative number `-1`, which the generic decode holds,
the error is returned after `Valid` is cleared. -/
theorem C11_decode_error_keeps_valid_receiver :
    checkValid [45, 49, 101, 57, 57, 57] = none ∧
    Uint16.UnmarshalJSON { Uint16 := 5, Valid := true } [45, 49, 101, 57, 57, 57] =
      ({ Uint16 := 5, Valid := true },
        some (GoError.unmarshalType (JSONValueDesc.number [45, 49, 101, 57, 57, 57]))) ∧
    Uint16.UnmarshalJSON { Uint16 := 5, Valid := true } [45, 49] =
      ({ Uint16 := 0, Valid := false },
        some (GoError.unmarshalType (JSONValueDesc.number [45, 49]))) :=
  ⟨rfl, rfl, rfl⟩

/-- The error exits of `Uint16.UnmarshalJSON` that pass line 81: for every
prior state `u`, when the generic decode of the input succeeds with the value
`v`, `UnmarshalJSON` returns an error and leaves `Valid == false` if `v` is a
boolean, an array or an object (the type-mismatch error, value 0), a non-empty
string that is not a run of decimal digits with a value in `0..65535`, or a
number whose literal is not a plain run of digits, as that of every negative
and every non-integer number (the decoder's type error, value 0). -/
theorem uint16_UnmarshalJSON_decode_errors (u : Null.Uint16) (data : Bytes) (v : IfaceValue)
    (hdec : decodeInterface data = Except.ok v) :
    (∀ b, v = IfaceValue.bool b → u.UnmarshalJSON data =
      ({ Uint16 := 0, Valid := false }, some (GoError.cannotUnmarshal DynType.bool))) ∧
    (v = IfaceValue.slice → u.UnmarshalJSON data =
      ({ Uint16 := 0, Valid := false }, some (GoError.cannotUnmarshal DynType.slice))) ∧
    (v = IfaceValue.map → u.UnmarshalJSON data =
      ({ Uint16 := 0, Valid := false }, some (GoError.cannotUnmarshal DynType.map))) ∧
    (∀ str, v = IfaceValue.string str → str ≠ [] → ¬ (AllDigits str ∧ decVal str 0 ≤ 65535) →
      (u.UnmarshalJSON data).2 ≠ none ∧ (u.UnmarshalJSON data).1.Valid = false) ∧
    (∀ lit, v = IfaceValue.float64 lit → ¬ AllDigits lit → u.UnmarshalJSON data =
      ({ Uint16 := 0, Valid := false },
        some (GoError.unmarshalType (JSONValueDesc.number lit)))) := by
  have h16 : (2 : Nat) ^ 16 - 1 = 65535 := by norm_num
  have hnull : data ≠ NullBytes ∨ v = IfaceValue.nil := by
    by_cases hn : data = NullBytes
    · right
      rw [hn, decodeInterface_NullBytes] at hdec
      cases hdec
      rfl
    · exact Or.inl hn
  refine ⟨?_, ?_, ?_, ?_, ?_⟩
  · intro b hv
    subst hv
    have hn : data ≠ NullBytes := by
      rcases hnull with h | h
      · exact h
      · cases h
    simp only [Uint16.UnmarshalJSON, hn, if_false, hdec]
    exact finishUnmarshalJSON_error u 0 _ (by omega)
  · intro hv
    subst hv
    have hn : data ≠ NullBytes := by
      rcases hnull with h | h
      · exact h
      · cases h
    simp only [Uint16.UnmarshalJSON, hn, if_false, hdec]
    exact finishUnmarshalJSON_error u 0 _ (by omega)
  · intro hv
    subst hv
    have hn : data ≠ NullBytes := by
      rcases hnull with h | h
      · exact h
      · cases h
    simp only [Uint16.UnmarshalJSON, hn, if_false, hdec]
    exact finishUnmarshalJSON_error u 0 _ (by omega)
  · intro str hv hne hnot
    subst hv
    have hn : data ≠ NullBytes := by
      rcases hnull with h | h
      · exact h
      · cases h
    have hlen : ¬ str.length = 0 := fun h => hne (List.length_eq_zero.1 h)
    have hiff := ParseUint_ok_iff str 16 (by decide)
    rw [h16] at hiff
    have herr : (ParseUint str 16).2 ≠ none := by
      intro hok
      obtain ⟨_, hall, hle⟩ := hiff.1 hok
      exact hnot ⟨hall, hle⟩
    have hle := ParseUint_error_le str 16 herr
    rw [h16] at hle
    simp only [Uint16.UnmarshalJSON, hn, if_false, hdec, hlen]
    cases hp : (ParseUint str 16).2 with
    | none => exact absurd hp herr
    | some e =>
      rw [finishUnmarshalJSON_error u _ e hle]
      exact ⟨by simp, rfl⟩
  · intro lit hv hnot
    subst hv
    have hn : data ≠ NullBytes := by
      rcases hnull with h | h
      · exact h
      · cases h
    obtain ⟨hcv, htop, c, item, hlit, h1, h2, h3, h4⟩ := decodeInterface_float64_inv data lit hdec
    subst hlit
    have herr : (ParseUint (c :: item) 64).2 ≠ none := by
      intro hok
      exact hnot ((ParseUint_ok_iff (c :: item) 64 (Nat.le_refl 64)).1 hok).2.1
    have hd : decodeUint64 data 0 =
        (0, some (GoError.unmarshalType (JSONValueDesc.number (c :: item)))) := by
      simp only [decodeUint64, hcv, htop, h1, h2, h3, h4, if_false, or_self]
      split
      · rename_i n hp
        rw [hp] at herr
        exact absurd rfl herr
      · rfl
    simp only [Uint16.UnmarshalJSON, hn, if_false, hdec, hd]
    exact finishUnmarshalJSON_error u 0 _ (by omega)

/-! ## The stored value in the null state -/

/-- When the end of `Uint16.UnmarshalJSON` returns no error and leaves the
null state, the value it stored is zero (the zero-suppression). -/
theorem finishUnmarshalJSON_null (u : Null.Uint16) (i : Nat) (err : Option GoError)
    (h1 : (u.finishUnmarshalJSON i err).2 = none)
    (h2 : (u.finishUnmarshalJSON i err).1.Valid = false) :
    (u.finishUnmarshalJSON i err).1.Uint16 = 0 := by
  unfold Uint16.finishUnmarshalJSON at h1 h2 ⊢
  by_cases hgt : i > MaxUint16
  · simp [hgt] at h1
  · simp only [hgt, if_false] at h1 h2 ⊢
    subst h1
    simpa using h2

/-- C18 (counterexample): on receivers holding the valid value 5,
`Uint16.UnmarshalText` of the empty text, `Uint16.UnmarshalJSON` of the empty
JSON string `""` and `Duration.UnmarshalText` of the empty text return no
error and end in the null state with the stored value still 5, not zero. -/
theorem C18_null_implies_zero_counterexample :
    Uint16.UnmarshalText { Uint16 := 5, Valid := true } (some []) =
      ({ Uint16 := 5, Valid := false }, none) ∧
    Uint16.UnmarshalJSON { Uint16 := 5, Valid := true } [34, 34] =
      ({ Uint16 := 5, Valid := false }, none) ∧
    Duration.UnmarshalText { Duration := 5, Valid := true } (some []) =
      ({ Duration := 5, Valid := false }, none) :=
  ⟨rfl, rfl, rfl⟩

/-- C18 (amended): for `Uint16` and `Duration`, every prior state and every
input, the stored value is zero after `FromPtr(nil)`, after every `Scan` and
`Randomize` that ends in the null state, after every `Duration.UnmarshalJSON`
that ends in the null state without error, and after every
`Uint16.UnmarshalJSON` that does so on an input other than the empty JSON
string and a null literal with space around it; on those two inputs, and in
every `UnmarshalText` that ends in the null state without error (the text is
empty or nil), `Valid` is cleared and the stored value is left as it was. -/
theorem C18_null_state_value {Src E : Type} :
    (Uint16FromPtr none = { Uint16 := 0, Valid := false } ∧
      DurationFromPtr none = { Duration := 0, Valid := false }) ∧
    (∀ (conv : Nat → Src → Nat × Option E) (u : Null.Uint16) (value : Option Src),
      (u.Scan conv value).1.Valid = false → (u.Scan conv value).1.Uint16 = 0) ∧
    (∀ (conv : Int → Src → Int × Option E) (d : Null.Duration) (value : Option Src),
      (d.Scan conv value).1.Valid = false → (d.Scan conv value).1.Duration = 0) ∧
    (∀ (u : Null.Uint16) (nextInt : Int) (shouldBeNull : Bool),
      (u.Randomize nextInt shouldBeNull).Valid = false →
      (u.Randomize nextInt shouldBeNull).Uint16 = 0) ∧
    (∀ (d : Null.Duration) (data : Bytes),
      (d.UnmarshalJSON data).2 = none → (d.UnmarshalJSON data).1.Valid = false →
      (d.UnmarshalJSON data).1.Duration = 0) ∧
    (∀ (u : Null.Uint16) (data : Bytes),
      (u.UnmarshalJSON data).2 = none → (u.UnmarshalJSON data).1.Valid = false →
      decodeInterface data ≠ Except.ok (IfaceValue.string []) →
      (data = NullBytes ∨ decodeInterface data ≠ Except.ok IfaceValue.nil) →
      (u.UnmarshalJSON data).1.Uint16 = 0) ∧
    (∀ (u : Null.Uint16) (data : Bytes),
      (decodeInterface data = Except.ok (IfaceValue.string []) ∨
        (data ≠ NullBytes ∧ decodeInterface data = Except.ok IfaceValue.nil)) →
      u.UnmarshalJSON data = ({ Uint16 := u.Uint16, Valid := false }, none)) ∧
    (∀ (u : Null.Uint16) (text : Option Bytes),
      (u.UnmarshalText text).2 = none → (u.UnmarshalText text).1.Valid = false →
      (u.UnmarshalText text).1.Uint16 = u.Uint16) ∧
    (∀ (d : Null.Duration) (text : Option Bytes),
      (d.UnmarshalText text).2 = none → (d.UnmarshalText text).1.Valid = false →
      (d.UnmarshalText text).1.Duration = d.Duration) := by
  refine ⟨⟨rfl, rfl⟩, ?_, ?_, ?_, ?_, ?_, ?_, ?_, ?_⟩
  · intro conv u value h
    cases value with
    | none => rfl
    | some v => simp [Uint16.Scan] at h
  · intro conv d value h
    cases value with
    | none => rfl
    | some v => simp [Duration.Scan] at h
  · intro u nextInt shouldBeNull h
    cases shouldBeNull with
    | true => rfl
    | false => simp [Uint16.Randomize] at h
  · intro d data h1 h2
    unfold Duration.UnmarshalJSON at h1 h2 ⊢
    by_cases hn : data = NullBytes
    · simp [hn]
    · simp only [hn, if_false] at h1 h2 ⊢
      generalize decodeInt64 data d.Duration = r at h1 h2 ⊢
      obtain ⟨x, err⟩ := r
      cases err with
      | none => simp at h2
      | some e => simp at h1
  · intro u data h1 h2 hstr hnil
    by_cases hn : data = NullBytes
    · subst hn
      rfl
    · have hnil2 : decodeInterface data ≠ Except.ok IfaceValue.nil := by
        rcases hnil with h | h
        · exact absurd h hn
        · exact h
      unfold Uint16.UnmarshalJSON at h1 h2 ⊢
      simp only [hn, if_false] at h1 h2 ⊢
      cases hdec : decodeInterface data with
      | error e =>
        rw [hdec] at h1
        simp at h1
      | ok v =>
        rw [hdec] at h1 h2
        cases v with
        | nil => exact absurd hdec hnil2
        | bool b =>
          simp only at h1 h2 ⊢
          exact finishUnmarshalJSON_null u _ _ h1 h2
        | float64 lit =>
          simp only at h1 h2 ⊢
          exact finishUnmarshalJSON_null u _ _ h1 h2
        | string str =>
          simp only at h1 h2 ⊢
          by_cases hlen : str.length = 0
          · have : str = [] := List.length_eq_zero.1 hlen
            subst this
            exact absurd hdec hstr
          · simp only [hlen, if_false] at h1 h2 ⊢
            exact finishUnmarshalJSON_null u _ _ h1 h2
        | slice =>
          simp only at h1 h2 ⊢
          exact finishUnmarshalJSON_null u _ _ h1 h2
        | map =>
          simp only at h1 h2 ⊢
          exact finishUnmarshalJSON_null u _ _ h1 h2
  · intro u data h
    rcases h with h | ⟨hn, h⟩
    · have hn : data ≠ NullBytes := by
        intro hn
        rw [hn, decodeInterface_NullBytes] at h
        cases h
      simp [Uint16.UnmarshalJSON, hn, h]
    · simp [Uint16.UnmarshalJSON, hn, h]
  · intro u text h1 h2
    cases text with
    | none => rfl
    | some t =>
      unfold Uint16.UnmarshalText at h1 h2 ⊢
      by_cases hlen : t.length = 0
      · simp [hlen]
      · simp only [hlen, if_false] at h1 h2 ⊢
        by_cases hok : (ParseUint t 16).2.isNone = true
        · simp [hok] at h2
        · simp only [hok] at h1 h2 ⊢
          rfl
  · intro d text h1 h2
    cases text with
    | none => rfl
    | some t =>
      unfold Duration.UnmarshalText at h1 h2 ⊢
      by_cases hlen : t.length = 0
      · simp [hlen]
      · simp only [hlen, if_false] at h1 h2 ⊢
        rw [h1] at h2
        simp at h2

/-- C18 (amended) at the JSON number `0` on a `Uint16` holding the valid value
5: the call ends in the null state without error, and the value is zero. -/
theorem C18_null_state_value_witness :
    ((Uint16.UnmarshalJSON { Uint16 := 5, Valid := true } [48]).2 = none ∧
      (Uint16.UnmarshalJSON { Uint16 := 5, Valid := true } [48]).1.Valid = false) ∧
    (Uint16.UnmarshalJSON { Uint16 := 5, Valid := true } [48]).1.Uint16 = 0 :=
  ⟨⟨rfl, rfl⟩,
    (@C18_null_state_value Unit Unit).2.2.2.2.2.1
      { Uint16 := 5, Valid := true } [48] rfl rfl
      (by rw [show decodeInterface [48] = Except.ok (IfaceValue.float64 [48]) from rfl]; simp)
      (Or.inr
        (by rw [show decodeInterface [48] = Except.ok (IfaceValue.float64 [48]) from rfl]; simp))⟩

end Null
